import Mathlib

/-! AVR switch/LED controllers: `avr/adc/main.c` and `avr/rgb/main.c`

Shallow embedding of the three interrupt handlers of each program.  Every
handler runs to completion (AVR clears the global interrupt flag on entry), so
a handler is a function on the program state and an execution is a list of
events.  `uint8_t` / `uint16_t` variables are natural numbers, reduced modulo
`2^8` / `2^16` where the C code stores into them.
-/

/-! ## Port register operations (`avr/io.h`) -/

/-- Bit value macro of avr-libc: `_BV(bit)` is `1 << bit`. -/
def BV (bit : Nat) : Nat := 1 <<< bit

/-- Statement `PORTB |= _BV(bit)` on the 8-bit port register. -/
def portSet (port bit : Nat) : Nat := (port ||| BV bit) % 256

/-- Statement `PORTB &= ~_BV(bit)`: the complement is taken in 16-bit `int`,
the result is stored back into the 8-bit port register. -/
def portClear (port bit : Nat) : Nat := (port &&& (0xFFFF ^^^ BV bit)) % 256

/-- Level of output line `bit` of the port register. -/
def lineHigh (port bit : Nat) : Bool := port.testBit bit

/-! ## Single-LED / ADC variant (`avr/adc/main.c`) -/

namespace Adc

/-- Pin `PB0`. -/
def LED_PIN : Nat := 0
/-- Pin `PB3`. -/
def LDR_PIN : Nat := 3
/-- Pin `PB2`. -/
def SWITCH_PIN : Nat := 2

/-- Global variables of the program together with the port register. -/
structure State where
  ticks : Nat
  prev_ticks : Nat
  state : Nat
  measurement_count : Nat
  sum : Nat
  avg : Nat
  PORTB : Nat
  deriving DecidableEq

/-- State when `main` reaches `sei()`: globals are zero, the port register
(zero at reset) has the LED line cleared and the two pull-ups enabled. -/
def init : State :=
  { ticks := 0, prev_ticks := 0, state := 0, measurement_count := 0, sum := 0, avg := 0,
    PORTB := portSet (portSet (portClear 0 LED_PIN) SWITCH_PIN) LDR_PIN }

/-- Handler `ISR(TIMER1_OVF_vect)`: `ticks++` on a `uint8_t`. -/
def TIMER1_OVF_vect (s : State) : State :=
  { s with ticks := (s.ticks + 1) % 256 }

/-- Value of `prev_ticks` after the first `if` of `ISR(INT0_vect)`. -/
def clamped (s : State) : Nat :=
  if s.ticks < s.prev_ticks then s.ticks else s.prev_ticks

/-- The edge event gets past `if (prev_ticks + 1 >= ticks) return;`
(the sum is computed in `int`, so it does not wrap). -/
def accepted (s : State) : Bool :=
  !(decide (clamped s + 1 ≥ s.ticks))

/-- Handler `ISR(INT0_vect)`. -/
def INT0_vect (s : State) : State :=
  let s := if s.ticks < s.prev_ticks then { s with prev_ticks := s.ticks } else s
  if s.prev_ticks + 1 ≥ s.ticks then s
  else
    let s :=
      if s.state ≠ 0 then { s with state := 0, PORTB := portClear s.PORTB LED_PIN }
      else { s with state := 1 }
    { s with prev_ticks := s.ticks }

/-- Handler `ISR(ADC_vect)`; `adcl` and `adch` are the values read from the
data registers `ADCL` and `ADCH`. -/
def ADC_vect (s : State) (adcl adch : Nat) : State :=
  if s.state = 0 then s
  else
    let low := adcl % 256
    let high := adch % 256
    let s := { s with sum := (s.sum + ((high <<< 8) ||| low)) % 65536 }
    if s.measurement_count ≥ 4 then
      let s := { s with avg := (s.sum / s.measurement_count) % 65536 }
      let s :=
        if s.avg > 300 then { s with PORTB := portSet s.PORTB LED_PIN }
        else if s.avg < 200 then { s with PORTB := portClear s.PORTB LED_PIN }
        else s
      { s with sum := 0, measurement_count := 0 }
    else
      { s with measurement_count := (s.measurement_count + 1) % 256 }

/-- Interrupt events of the program. -/
inductive Event where
  | tick
  | edge
  | sample (adcl adch : Nat)
  deriving DecidableEq

/-- Sample-ready event delivering the conversion result `v`. -/
def sampleOf (v : Nat) : Event := Event.sample (v % 256) (v / 256)

/-- One event. -/
def step (s : State) : Event → State
  | Event.tick => TIMER1_OVF_vect s
  | Event.edge => INT0_vect s
  | Event.sample adcl adch => ADC_vect s adcl adch

/-- A sequence of events, oldest first. -/
def run (s : State) : List Event → State
  | [] => s
  | e :: es => run (step s e) es

/-! ### Observations on executions -/

/-- New value of the power state when an edge event is accepted
(`if (state) state = 0; else state = 1;`). -/
def flipped (st : Nat) : Nat := if st ≠ 0 then 0 else 1

/-- Number of events of the sequence across which the power state changes. -/
def changes (s : State) : List Event → Nat
  | [] => 0
  | e :: es => (if (step s e).state ≠ s.state then 1 else 0) + changes (step s e) es

/-- Number of edge events of the sequence that are accepted. -/
def acceptedCount (s : State) : List Event → Nat
  | [] => 0
  | Event.edge :: es => (if accepted s then 1 else 0) + acceptedCount (INT0_vect s) es
  | Event.tick :: es => acceptedCount (TIMER1_OVF_vect s) es
  | Event.sample adcl adch :: es => acceptedCount (ADC_vect s adcl adch) es

/-- Number of tick events since the last accepted edge event, after the
sequence has run from `s`; `g` is that number on entry and `none` stands for
"no edge event accepted so far". -/
def sinceAccepted (s : State) (g : Option Nat) : List Event → Option Nat
  | [] => g
  | Event.edge :: es => sinceAccepted (INT0_vect s) (if accepted s then some 0 else g) es
  | Event.tick :: es => sinceAccepted (TIMER1_OVF_vect s) (g.map (· + 1)) es
  | Event.sample adcl adch :: es => sinceAccepted (ADC_vect s adcl adch) g es

/-- Every edge event of the sequence occurs fewer than `T` tick events after
the edge event before it; `g` is the number of ticks since that edge event
(`none`: there was none yet). -/
def bounce (T : Nat) : Option Nat → List Event → Bool
  | _, [] => true
  | none, Event.edge :: es => bounce T (some 0) es
  | some k, Event.edge :: es => decide (k < T) && bounce T (some 0) es
  | g, Event.tick :: es => bounce T (g.map (· + 1)) es
  | g, Event.sample _ _ :: es => bounce T g es

/-- Example execution: switch on after two ticks, five conversions of 350 (the
fifth one lights the LED), switch off two ticks later. -/
def sessionOnOff : List Event :=
  [Event.tick, Event.tick, Event.edge, sampleOf 350, sampleOf 350, sampleOf 350, sampleOf 350,
    sampleOf 350, Event.tick, Event.tick, Event.edge]

/-- Example execution: three edge events with no tick between them. -/
def bounceTrain : List Event :=
  [Event.tick, Event.tick, Event.edge, Event.edge, Event.edge, Event.tick]

/-- Conversion result that `ISR(ADC_vect)` adds to `sum`: `(high << 8) | low`
for the bytes read from `ADCH` and `ADCL`. -/
def sampleValue (adcl adch : Nat) : Nat := ((adch % 256) <<< 8) ||| (adcl % 256)

/-- Every sample-ready event of the sequence delivers a 10-bit conversion
result, 0..1023. -/
def tenBit : List Event → Bool
  | [] => true
  | Event.sample adcl adch :: es => decide (sampleValue adcl adch ≤ 1023) && tenBit es
  | Event.tick :: es => tenBit es
  | Event.edge :: es => tenBit es

/-- The sequence holds tick and edge events only. -/
def ticksAndEdges : List Event → Bool
  | [] => true
  | Event.sample _ _ :: _ => false
  | Event.tick :: es => ticksAndEdges es
  | Event.edge :: es => ticksAndEdges es

/-- Truncated integer mean of a list of samples, as the specification words
it: the sum of the samples divided by their number. -/
def mean (samples : List Nat) : Nat := samples.sum / samples.length

/-- Hypothetical guard, not the one of the program: the comparison of
`ISR(INT0_vect)` with the sum `prev_ticks + 1` truncated to 8 bits. -/
def acceptedWrapped (s : State) : Bool :=
  !(decide ((clamped s + 1) % 256 ≥ s.ticks))

/-- Example execution: 255 ticks, an edge event (accepted at `ticks = 255`),
and one more tick, which wraps the counter to 0. -/
def wrapSession : List Event :=
  List.replicate 255 Event.tick ++ [Event.edge, Event.tick]

/-- Example execution: switch on, two conversions of 300, switch off two ticks
later and on again two ticks after that. -/
def staleSession : List Event :=
  [Event.tick, Event.tick, Event.edge, sampleOf 300, sampleOf 300, Event.tick, Event.tick,
    Event.edge, Event.tick, Event.tick, Event.edge]

/-- Example execution: switch on, then five conversions of 250. -/
def fiveSamples : List Event :=
  [Event.tick, Event.tick, Event.edge, sampleOf 250, sampleOf 250, sampleOf 250, sampleOf 250,
    sampleOf 250]

/-- Sample-ready events for a list of register readings `(ADCL, ADCH)`. -/
def feed (w : List (Nat × Nat)) : List Event :=
  w.map (fun r => Event.sample r.1 r.2)

/-- Sum of the conversion results of a list of register readings. -/
def total (w : List (Nat × Nat)) : Nat :=
  (w.map (fun r => sampleValue r.1 r.2)).sum

end Adc

/-! ## RGB rotation variant (`avr/rgb/main.c`) -/

namespace Rgb

/-- Pin `PB3`. -/
def RED_PIN : Nat := 3
/-- Pin `PB0`. -/
def GREEN_PIN : Nat := 0
/-- Pin `PB4`. -/
def BLUE_PIN : Nat := 4
/-- Pin `PB2`. -/
def SWITCH_PIN : Nat := 2

/-- Array `s1`: the output switched on at each step. -/
def s1 : List Nat := [RED_PIN, GREEN_PIN, BLUE_PIN]
/-- Array `s2`: the output switched off at each step. -/
def s2 : List Nat := [BLUE_PIN, RED_PIN, GREEN_PIN]

/-- Global variables of the program together with the port register. -/
structure State where
  ticks : Nat
  prev_ticks : Nat
  state : Nat
  i : Nat
  PORTB : Nat
  deriving DecidableEq

/-- State when `main` reaches `sei()`: globals are zero, the port register
(zero at reset) has the switch pull-up enabled. -/
def init : State :=
  { ticks := 0, prev_ticks := 0, state := 0, i := 0, PORTB := portSet 0 SWITCH_PIN }

/-- Handler `ISR(TIMER1_OVF_vect)`.  A read of `s1[i]` or `s2[i]` outside the
three-element arrays has no defined result: the handler then yields `none`. -/
def TIMER1_OVF_vect (s : State) : Option State :=
  let s := { s with ticks := (s.ticks + 1) % 256 }
  if s.state ≠ 0 then
    match s2[s.i]?, s1[s.i]? with
    | some trailing, some leading =>
      let s := { s with PORTB := portClear s.PORTB trailing }
      let s := { s with PORTB := portSet s.PORTB leading }
      let s := { s with i := (s.i + 1) % 256 }
      some (if s.i > 2 then { s with i := 0 } else s)
    | _, _ => none
  else some s

/-- Value of `prev_ticks` after the first `if` of `ISR(INT0_vect)`. -/
def clamped (s : State) : Nat :=
  if s.ticks < s.prev_ticks then s.ticks else s.prev_ticks

/-- The edge event gets past `if (prev_ticks + 2 >= ticks) return;`
(the sum is computed in `int`, so it does not wrap). -/
def accepted (s : State) : Bool :=
  !(decide (clamped s + 2 ≥ s.ticks))

/-- Handler `ISR(INT0_vect)`; `none` on a read of `s2[i]` outside the array. -/
def INT0_vect (s : State) : Option State :=
  let s := if s.ticks < s.prev_ticks then { s with prev_ticks := s.ticks } else s
  if s.prev_ticks + 2 ≥ s.ticks then some s
  else
    let r :=
      if s.state ≠ 0 then
        match s2[s.i]? with
        | some trailing => some { s with state := 0, PORTB := portClear s.PORTB trailing }
        | none => none
      else some { s with state := 1 }
    match r with
    | some s => some { s with prev_ticks := s.ticks }
    | none => none

/-- Interrupt events of the program. -/
inductive Event where
  | tick
  | edge
  deriving DecidableEq

/-- One event. -/
def step (s : State) : Event → Option State
  | Event.tick => TIMER1_OVF_vect s
  | Event.edge => INT0_vect s

/-- A sequence of events, oldest first. -/
def run (s : State) : List Event → Option State
  | [] => some s
  | e :: es =>
    match step s e with
    | some t => run t es
    | none => none

/-! ### Observations on executions -/

/-- New value of the power state when an edge event is accepted
(`if (state) state = 0; else state = 1;`). -/
def flipped (st : Nat) : Nat := if st ≠ 0 then 0 else 1

/-- Number of events of the sequence across which the power state changes. -/
def changes (s : State) : List Event → Option Nat
  | [] => some 0
  | e :: es =>
    match step s e with
    | some t =>
      match changes t es with
      | some n => some ((if t.state ≠ s.state then 1 else 0) + n)
      | none => none
    | none => none

/-- Number of edge events of the sequence that are accepted. -/
def acceptedCount (s : State) : List Event → Option Nat
  | [] => some 0
  | Event.edge :: es =>
    match INT0_vect s with
    | some t =>
      match acceptedCount t es with
      | some n => some ((if accepted s then 1 else 0) + n)
      | none => none
    | none => none
  | Event.tick :: es =>
    match TIMER1_OVF_vect s with
    | some t => acceptedCount t es
    | none => none

/-- Number of tick events since the last accepted edge event, after the
sequence has run from `s`; `g` is that number on entry and `none` stands for
"no edge event accepted so far". -/
def sinceAccepted (s : State) (g : Option Nat) : List Event → Option Nat
  | [] => g
  | Event.edge :: es =>
    match INT0_vect s with
    | some t => sinceAccepted t (if accepted s then some 0 else g) es
    | none => none
  | Event.tick :: es =>
    match TIMER1_OVF_vect s with
    | some t => sinceAccepted t (g.map (· + 1)) es
    | none => none

/-- Every edge event of the sequence occurs fewer than `T` tick events after
the edge event before it; `g` is the number of ticks since that edge event
(`none`: there was none yet). -/
def bounce (T : Nat) : Option Nat → List Event → Bool
  | _, [] => true
  | none, Event.edge :: es => bounce T (some 0) es
  | some k, Event.edge :: es => decide (k < T) && bounce T (some 0) es
  | g, Event.tick :: es => bounce T (g.map (· + 1)) es

/-- Every edge event of the sequence occurs fewer than `T` tick events after
the first edge event of the sequence; `g` is the number of ticks since that
first edge event (`none`: there was none yet). -/
def burst (T : Nat) : Option Nat → List Event → Bool
  | _, [] => true
  | none, Event.edge :: es => burst T (some 0) es
  | some k, Event.edge :: es => decide (k < T) && burst T (some k) es
  | g, Event.tick :: es => burst T (g.map (· + 1)) es

/-- All three LED lines of the port register are low. -/
def allLow (port : Nat) : Bool :=
  !lineHigh port RED_PIN && !lineHigh port GREEN_PIN && !lineHigh port BLUE_PIN

/-- Invariant of the rotation: the index is inside the arrays, an LED line is
high only if it is the line `s2[i]` that the next step switches off, and no LED
line is high while powered off. -/
def rotInv (s : State) : Bool :=
  decide (s.i < 3) &&
  [RED_PIN, GREEN_PIN, BLUE_PIN].all
    (fun pin => !lineHigh s.PORTB pin || s2[s.i]? == some pin) &&
  (s.state != 0 || allLow s.PORTB)

/-- The (trailing, leading) pair of outputs that a tick event taken in state
`s` while powered on switches off and on: `(s2[i], s1[i])`. -/
def pairUsed (s : State) : Option (Nat × Nat) :=
  match s2[s.i]?, s1[s.i]? with
  | some trailing, some leading => some (trailing, leading)
  | _, _ => none

/-- Example execution: switch on after three ticks, then four ticks of
rotation. -/
def sessionOn : List Event :=
  [Event.tick, Event.tick, Event.tick, Event.edge, Event.tick, Event.tick, Event.tick,
    Event.tick]

/-- Example execution: after three ticks, four edge events one tick apart. -/
def bounceTrain : List Event :=
  [Event.tick, Event.tick, Event.tick, Event.edge, Event.tick, Event.edge, Event.tick,
    Event.edge, Event.tick, Event.edge]

/-- Example execution: after three ticks, three edge events within one tick of
the first one. -/
def shortBurst : List Event :=
  [Event.tick, Event.tick, Event.tick, Event.edge, Event.tick, Event.edge, Event.edge,
    Event.tick, Event.tick]

/-- The LED lines that are high in the port register. -/
def litLines (port : Nat) : List Nat :=
  [RED_PIN, GREEN_PIN, BLUE_PIN].filter (fun pin => lineHigh port pin)

/-- Hypothetical guard, not the one of the program: the comparison of
`ISR(INT0_vect)` with the sum `prev_ticks + 2` truncated to 8 bits. -/
def acceptedWrapped (s : State) : Bool :=
  !(decide ((clamped s + 2) % 256 ≥ s.ticks))

/-- Example execution: 255 ticks, an edge event (accepted at `ticks = 255`),
and one more tick, which wraps the counter to 0. -/
def wrapSession : List Event :=
  List.replicate 255 Event.tick ++ [Event.edge, Event.tick]

end Rgb

/-! ## Port register lemmas -/

theorem BV_testBit (b c : Nat) : (BV b).testBit c = decide (b = c) := by
  unfold BV
  rw [Nat.shiftLeft_eq, Nat.one_mul, Nat.testBit_two_pow]

theorem mask_testBit (c : Nat) : (0xFFFF : Nat).testBit c = decide (c < 16) := by
  have h : (0xFFFF : Nat) = 2 ^ 16 - 1 := by norm_num
  rw [h, Nat.testBit_two_pow_sub_one]

theorem lineHigh_portClear (p b c : Nat) :
    lineHigh (portClear p b) c = (decide (c < 8) && lineHigh p c && !decide (b = c)) := by
  unfold lineHigh portClear
  have h : (256 : Nat) = 2 ^ 8 := by norm_num
  rw [h, Nat.testBit_mod_two_pow, Nat.testBit_land, Nat.testBit_xor, BV_testBit, mask_testBit]
  by_cases h8 : c < 8
  · have h16 : c < 16 := by omega
    simp [h8, h16]
  · simp [h8]

theorem lineHigh_portSet (p b c : Nat) :
    lineHigh (portSet p b) c = (decide (c < 8) && (lineHigh p c || decide (b = c))) := by
  unfold lineHigh portSet
  have h : (256 : Nat) = 2 ^ 8 := by norm_num
  rw [h, Nat.testBit_mod_two_pow, Nat.testBit_lor, BV_testBit]

/-! ## Single-LED / ADC variant: handler lemmas -/

namespace Adc

theorem accepted_iff (s : State) : accepted s = true ↔ s.prev_ticks + 1 < s.ticks := by
  unfold accepted clamped
  by_cases h : s.ticks < s.prev_ticks
  · simp [h]
    omega
  · simp [h]

theorem accepted_false_iff (s : State) : accepted s = false ↔ s.ticks ≤ s.prev_ticks + 1 := by
  rw [← Bool.not_eq_true, accepted_iff]
  omega

theorem INT0_vect_discard (s : State) (h : accepted s = false) :
    INT0_vect s = { s with prev_ticks := clamped s } := by
  rw [accepted_false_iff] at h
  unfold INT0_vect clamped
  by_cases hlt : s.ticks < s.prev_ticks
  · simp [hlt]
  · simp [hlt, h]

theorem INT0_vect_accept (s : State) (h : accepted s = true) :
    INT0_vect s =
      { s with
        state := flipped s.state
        prev_ticks := s.ticks
        PORTB := if s.state ≠ 0 then portClear s.PORTB LED_PIN else s.PORTB } := by
  rw [accepted_iff] at h
  have hlt : ¬ s.ticks < s.prev_ticks := by omega
  have hge : ¬ s.ticks ≤ s.prev_ticks + 1 := by omega
  unfold INT0_vect flipped
  by_cases hs : s.state = 0
  · simp [hlt, hge, hs]
  · simp [hlt, hge, hs]

theorem ADC_vect_state (s : State) (adcl adch : Nat) :
    (ADC_vect s adcl adch).state = s.state := by
  unfold ADC_vect
  simp only
  split_ifs <;> rfl

theorem ADC_vect_ticks (s : State) (adcl adch : Nat) :
    (ADC_vect s adcl adch).ticks = s.ticks := by
  unfold ADC_vect
  simp only
  split_ifs <;> rfl

theorem ADC_vect_prev_ticks (s : State) (adcl adch : Nat) :
    (ADC_vect s adcl adch).prev_ticks = s.prev_ticks := by
  unfold ADC_vect
  simp only
  split_ifs <;> rfl

theorem ADC_vect_off (s : State) (adcl adch : Nat) (h : s.state = 0) :
    ADC_vect s adcl adch = s := by
  unfold ADC_vect
  simp [h]

theorem INT0_vect_ticks (s : State) : (INT0_vect s).ticks = s.ticks := by
  cases h : accepted s
  · rw [INT0_vect_discard s h]
  · rw [INT0_vect_accept s h]

theorem INT0_vect_state_discard (s : State) (h : accepted s = false) :
    (INT0_vect s).state = s.state := by
  rw [INT0_vect_discard s h]

theorem flipped_ne (st : Nat) : flipped st ≠ st := by
  unfold flipped
  split_ifs <;> omega

/-- After any edge event, accepted or not, `ticks ≤ prev_ticks + 1`. -/
theorem INT0_vect_settled (s : State) :
    (INT0_vect s).ticks ≤ (INT0_vect s).prev_ticks + 1 := by
  cases h : accepted s
  · rw [INT0_vect_discard s h]
    rw [accepted_false_iff] at h
    unfold clamped
    show s.ticks ≤ (if s.ticks < s.prev_ticks then s.ticks else s.prev_ticks) + 1
    split_ifs <;> omega
  · rw [INT0_vect_accept s h]
    show s.ticks ≤ s.ticks + 1
    omega

/-- One event keeps the LED line low while the power state is off. -/
theorem offDark_step (s : State) (e : Event)
    (h : s.state = 0 → lineHigh s.PORTB LED_PIN = false) :
    (step s e).state = 0 → lineHigh (step s e).PORTB LED_PIN = false := by
  cases e with
  | tick => exact h
  | edge =>
    show (INT0_vect s).state = 0 → lineHigh (INT0_vect s).PORTB LED_PIN = false
    cases ha : accepted s
    · rw [INT0_vect_discard s ha]
      exact h
    · rw [INT0_vect_accept s ha]
      intro h0
      by_cases hs : s.state = 0
      · simp [flipped, hs] at h0
      · simp [hs, lineHigh_portClear]
  | sample adcl adch =>
    show (ADC_vect s adcl adch).state = 0 → lineHigh (ADC_vect s adcl adch).PORTB LED_PIN = false
    intro h0
    rw [ADC_vect_state] at h0
    rw [ADC_vect_off s adcl adch h0]
    exact h h0

theorem offDark_run (evs : List Event) :
    ∀ s : State, (s.state = 0 → lineHigh s.PORTB LED_PIN = false) →
      (run s evs).state = 0 → lineHigh (run s evs).PORTB LED_PIN = false := by
  induction evs with
  | nil => intro s h; exact h
  | cons e es ih => intro s h; exact ih (step s e) (offDark_step s e h)

end Adc

/-! ## RGB rotation variant: handler lemmas -/

namespace Rgb

theorem rgb_accepted_iff (s : State) : accepted s = true ↔ s.prev_ticks + 2 < s.ticks := by
  unfold accepted clamped
  by_cases h : s.ticks < s.prev_ticks
  · simp [h]
    omega
  · simp [h]

theorem rgb_accepted_false_iff (s : State) : accepted s = false ↔ s.ticks ≤ s.prev_ticks + 2 := by
  rw [← Bool.not_eq_true, rgb_accepted_iff]
  omega

theorem rgb_INT0_vect_discard (s : State) (h : accepted s = false) :
    INT0_vect s = some { s with prev_ticks := clamped s } := by
  rw [rgb_accepted_false_iff] at h
  unfold INT0_vect clamped
  by_cases hlt : s.ticks < s.prev_ticks
  · simp [hlt]
  · simp [hlt, h]

theorem INT0_vect_accept_off (s : State) (h : accepted s = true) (hs : s.state = 0) :
    INT0_vect s = some { s with state := 1, prev_ticks := s.ticks } := by
  rw [rgb_accepted_iff] at h
  have hlt : ¬ s.ticks < s.prev_ticks := by omega
  have hge : ¬ s.ticks ≤ s.prev_ticks + 2 := by omega
  unfold INT0_vect
  simp [hlt, hge, hs]

theorem INT0_vect_accept_on (s : State) (trailing : Nat) (h : accepted s = true)
    (hs : s.state ≠ 0) (hi : s2[s.i]? = some trailing) :
    INT0_vect s =
      some { s with state := 0, prev_ticks := s.ticks, PORTB := portClear s.PORTB trailing } := by
  rw [rgb_accepted_iff] at h
  have hlt : ¬ s.ticks < s.prev_ticks := by omega
  have hge : ¬ s.ticks ≤ s.prev_ticks + 2 := by omega
  unfold INT0_vect
  simp [hlt, hge, hs, hi]

theorem TIMER1_OVF_vect_off (s : State) (hs : s.state = 0) :
    TIMER1_OVF_vect s = some { s with ticks := (s.ticks + 1) % 256 } := by
  unfold TIMER1_OVF_vect
  simp [hs]

theorem TIMER1_OVF_vect_on (s : State) (trailing leading : Nat) (hs : s.state ≠ 0)
    (hi : s.i < 3) (h2 : s2[s.i]? = some trailing) (h1 : s1[s.i]? = some leading) :
    TIMER1_OVF_vect s =
      some { s with
        ticks := (s.ticks + 1) % 256
        i := (s.i + 1) % 3
        PORTB := portSet (portClear s.PORTB trailing) leading } := by
  unfold TIMER1_OVF_vect
  simp only [hs, h1, h2, ne_eq, not_false_eq_true, if_true]
  obtain ⟨t, p, st, i, port⟩ := s
  simp only at hi ⊢
  interval_cases i <;> simp

/-- Inside the arrays both reads succeed. -/
theorem reads_defined (k : Nat) (hk : k < 3) :
    ∃ trailing leading, s2[k]? = some trailing ∧ s1[k]? = some leading := by
  interval_cases k <;> simp [s1, s2]

end Rgb

/-! ## RGB rotation variant: the rotation invariant -/

namespace Rgb

theorem rotInv_init : rotInv init = true := by decide

theorem rotInv_tick (s : State) (h : rotInv s = true) :
    ∃ t, TIMER1_OVF_vect s = some t ∧ rotInv t = true := by
  by_cases hs : s.state = 0
  · refine ⟨_, TIMER1_OVF_vect_off s hs, ?_⟩
    simpa [rotInv] using h
  · obtain ⟨tk, p, st, i, port⟩ := s
    have hi : i < 3 := by
      simp only [rotInv, Bool.and_eq_true, decide_eq_true_eq] at h
      exact h.1.1
    simp only at hs
    interval_cases i
    · refine ⟨_, TIMER1_OVF_vect_on _ BLUE_PIN RED_PIN hs (by simp) rfl rfl, ?_⟩
      simp [rotInv, hs, lineHigh_portSet, lineHigh_portClear, s2, RED_PIN, GREEN_PIN, BLUE_PIN] at h ⊢
      simp [h]
    · refine ⟨_, TIMER1_OVF_vect_on _ RED_PIN GREEN_PIN hs (by simp) rfl rfl, ?_⟩
      simp [rotInv, hs, lineHigh_portSet, lineHigh_portClear, s2, RED_PIN, GREEN_PIN, BLUE_PIN] at h ⊢
      simp [h]
    · refine ⟨_, TIMER1_OVF_vect_on _ GREEN_PIN BLUE_PIN hs (by simp) rfl rfl, ?_⟩
      simp [rotInv, hs, lineHigh_portSet, lineHigh_portClear, s2, RED_PIN, GREEN_PIN, BLUE_PIN] at h ⊢
      simp [h]

theorem rotInv_edge (s : State) (h : rotInv s = true) :
    ∃ t, INT0_vect s = some t ∧ rotInv t = true := by
  cases ha : accepted s
  · refine ⟨_, rgb_INT0_vect_discard s ha, ?_⟩
    simpa [rotInv] using h
  · by_cases hs : s.state = 0
    · refine ⟨_, INT0_vect_accept_off s ha hs, ?_⟩
      simp only [rotInv, Bool.and_eq_true] at h ⊢
      exact ⟨h.1, by simp⟩
    · obtain ⟨tk, p, st, i, port⟩ := s
      have hi : i < 3 := by
        simp only [rotInv, Bool.and_eq_true, decide_eq_true_eq] at h
        exact h.1.1
      simp only at hs
      interval_cases i
      · refine ⟨_, INT0_vect_accept_on _ BLUE_PIN ha hs rfl, ?_⟩
        simp [rotInv, allLow, hs, lineHigh_portClear, s2, RED_PIN, GREEN_PIN, BLUE_PIN] at h ⊢
        simp [h]
      · refine ⟨_, INT0_vect_accept_on _ RED_PIN ha hs rfl, ?_⟩
        simp [rotInv, allLow, hs, lineHigh_portClear, s2, RED_PIN, GREEN_PIN, BLUE_PIN] at h ⊢
        simp [h]
      · refine ⟨_, INT0_vect_accept_on _ GREEN_PIN ha hs rfl, ?_⟩
        simp [rotInv, allLow, hs, lineHigh_portClear, s2, RED_PIN, GREEN_PIN, BLUE_PIN] at h ⊢
        simp [h]

theorem rotInv_step (s : State) (e : Event) (h : rotInv s = true) :
    ∃ t, step s e = some t ∧ rotInv t = true := by
  cases e with
  | tick => exact rotInv_tick s h
  | edge => exact rotInv_edge s h

theorem rotInv_run (evs : List Event) :
    ∀ s : State, rotInv s = true → ∃ t, run s evs = some t ∧ rotInv t = true := by
  induction evs with
  | nil => intro s h; exact ⟨s, rfl, h⟩
  | cons e es ih =>
    intro s h
    obtain ⟨t, ht, hinv⟩ := rotInv_step s e h
    obtain ⟨u, hu, hinv2⟩ := ih t hinv
    refine ⟨u, ?_, hinv2⟩
    simp [run, ht, hu]

theorem rotInv_off (s : State) (h : rotInv s = true) (hs : s.state = 0) :
    allLow s.PORTB = true := by
  simp only [rotInv, Bool.and_eq_true, Bool.or_eq_true, bne_iff_ne] at h
  rcases h.2 with h2 | h2
  · exact absurd hs h2
  · exact h2

theorem s2_some_lt (k a : Nat) (h : s2[k]? = some a) : k < 3 := by
  obtain ⟨hk, _⟩ := List.getElem?_eq_some_iff.1 h
  exact hk

/-- A tick event taken while powered on, when it is defined. -/
theorem TIMER1_OVF_vect_on_some (s t : State) (hs : s.state ≠ 0)
    (h : TIMER1_OVF_vect s = some t) :
    s.i < 3 ∧ ∃ trailing leading, s2[s.i]? = some trailing ∧ s1[s.i]? = some leading ∧
      t = { s with
        ticks := (s.ticks + 1) % 256
        i := (s.i + 1) % 3
        PORTB := portSet (portClear s.PORTB trailing) leading } := by
  cases h2 : s2[s.i]? with
  | none =>
    unfold TIMER1_OVF_vect at h
    simp [hs, h2] at h
  | some a =>
    have hi : s.i < 3 := s2_some_lt s.i a h2
    obtain ⟨a', b, h2', h1⟩ := reads_defined s.i hi
    rw [h2] at h2'
    cases h2'
    rw [TIMER1_OVF_vect_on s a b hs hi h2 h1] at h
    cases h
    exact ⟨hi, a, b, rfl, h1, rfl⟩

theorem TIMER1_OVF_vect_ticks (s t : State) (h : TIMER1_OVF_vect s = some t) :
    t.ticks = (s.ticks + 1) % 256 := by
  by_cases hs : s.state = 0
  · rw [TIMER1_OVF_vect_off s hs] at h
    cases h
    rfl
  · obtain ⟨_, a, b, _, _, ht⟩ := TIMER1_OVF_vect_on_some s t hs h
    rw [ht]

theorem INT0_vect_ticks_of_lt (s : State) (hi : s.i < 3) :
    ∃ t, INT0_vect s = some t ∧ t.ticks = s.ticks := by
  cases ha : accepted s
  · exact ⟨_, rgb_INT0_vect_discard s ha, rfl⟩
  · by_cases hs : s.state = 0
    · exact ⟨_, INT0_vect_accept_off s ha hs, rfl⟩
    · obtain ⟨a, _, h2, _⟩ := reads_defined s.i hi
      exact ⟨_, INT0_vect_accept_on s a ha hs h2, rfl⟩

theorem rgb_INT0_vect_ticks (s t : State) (h : INT0_vect s = some t) : t.ticks = s.ticks := by
  cases ha : accepted s
  · rw [rgb_INT0_vect_discard s ha] at h
    cases h
    rfl
  · by_cases hs : s.state = 0
    · rw [INT0_vect_accept_off s ha hs] at h
      cases h
      rfl
    · cases h2 : s2[s.i]? with
      | some a =>
        rw [INT0_vect_accept_on s a ha hs h2] at h
        cases h
        rfl
      | none =>
        rw [rgb_accepted_iff] at ha
        have hlt : ¬ s.ticks < s.prev_ticks := by omega
        have hge : ¬ s.ticks ≤ s.prev_ticks + 2 := by omega
        unfold INT0_vect at h
        simp [hlt, hge, hs, h2] at h

/-- The pair used by a tick depends on the rotation index only. -/
theorem pairUsed_eq (s : State) : pairUsed s = pairUsed { init with i := s.i } := rfl

theorem allLow_iff {port : Nat} :
    allLow port = true ↔
      lineHigh port RED_PIN = false ∧ lineHigh port GREEN_PIN = false ∧
        lineHigh port BLUE_PIN = false := by
  simp [allLow, and_assoc]

end Rgb

/-! ## Debounce threshold -/

/-- C1 (as stated, refuted): with `elapsed = ticks - prev_ticks` equal to the
claimed threshold (1 in the single-LED variant, 2 in the RGB variant) the edge
event is not accepted: the handler returns the state it was given. Both states
are reached from the initial state by tick events alone. -/
theorem debounce_threshold_as_stated_fails :
    (Adc.run Adc.init [Adc.Event.tick] = { Adc.init with ticks := 1 } ∧
      ¬ ((1 : Nat) - 0 < 1) ∧
      Adc.INT0_vect { Adc.init with ticks := 1 } = { Adc.init with ticks := 1 }) ∧
    (Rgb.run Rgb.init [Rgb.Event.tick, Rgb.Event.tick] = some { Rgb.init with ticks := 2 } ∧
      ¬ ((2 : Nat) - 0 < 2) ∧
      Rgb.INT0_vect { Rgb.init with ticks := 2 } = some { Rgb.init with ticks := 2 }) := by
  decide

/-- C1 (amended): for every state with `ticks ≥ prev_ticks`, an edge event is
discarded (the handler leaves every variable as it was) exactly when
`elapsed = ticks - prev_ticks` is at most 1 in the single-LED variant and at
most 2 in the RGB variant; otherwise it is accepted: the power state is flipped
and `prev_ticks` becomes `ticks`. -/
theorem debounce_threshold :
    (∀ s : Adc.State, s.prev_ticks ≤ s.ticks →
      (s.ticks - s.prev_ticks ≤ 1 → Adc.INT0_vect s = s) ∧
      (1 < s.ticks - s.prev_ticks →
        (Adc.INT0_vect s).state = Adc.flipped s.state ∧
        (Adc.INT0_vect s).state ≠ s.state ∧
        (Adc.INT0_vect s).prev_ticks = s.ticks)) ∧
    (∀ s : Rgb.State, s.prev_ticks ≤ s.ticks → s.i < 3 →
      (s.ticks - s.prev_ticks ≤ 2 → Rgb.INT0_vect s = some s) ∧
      (2 < s.ticks - s.prev_ticks →
        ∃ t, Rgb.INT0_vect s = some t ∧ t.state = Rgb.flipped s.state ∧
          t.state ≠ s.state ∧ t.prev_ticks = s.ticks)) := by
  refine ⟨fun s hle => ⟨fun h => ?_, fun h => ?_⟩, fun s hle hi => ⟨fun h => ?_, fun h => ?_⟩⟩
  · have ha : Adc.accepted s = false := (Adc.accepted_false_iff s).2 (by omega)
    rw [Adc.INT0_vect_discard s ha]
    have hc : Adc.clamped s = s.prev_ticks := by
      unfold Adc.clamped
      rw [if_neg (by omega)]
    rw [hc]
  · have ha : Adc.accepted s = true := (Adc.accepted_iff s).2 (by omega)
    rw [Adc.INT0_vect_accept s ha]
    exact ⟨rfl, Adc.flipped_ne s.state, rfl⟩
  · have ha : Rgb.accepted s = false := (Rgb.rgb_accepted_false_iff s).2 (by omega)
    rw [Rgb.rgb_INT0_vect_discard s ha]
    have hc : Rgb.clamped s = s.prev_ticks := by
      unfold Rgb.clamped
      rw [if_neg (by omega)]
    rw [hc]
  · have ha : Rgb.accepted s = true := (Rgb.rgb_accepted_iff s).2 (by omega)
    by_cases hs : s.state = 0
    · refine ⟨_, Rgb.INT0_vect_accept_off s ha hs, ?_, ?_, rfl⟩
      · simp [Rgb.flipped, hs]
      · simp [hs]
    · obtain ⟨trailing, _, h2, _⟩ := Rgb.reads_defined s.i hi
      refine ⟨_, Rgb.INT0_vect_accept_on s trailing ha hs h2, ?_, ?_, rfl⟩
      · simp [Rgb.flipped, hs]
      · exact fun h0 => hs h0.symm

/-- Instance of `debounce_threshold`: in both variants an edge event at
`elapsed` equal to the constant is discarded and one tick later is accepted. -/
theorem debounce_threshold_witness :
    (Adc.INT0_vect { Adc.init with ticks := 1 } = { Adc.init with ticks := 1 } ∧
      (Adc.INT0_vect { Adc.init with ticks := 2 }).state = 1 ∧
      (Adc.INT0_vect { Adc.init with ticks := 2 }).prev_ticks = 2) ∧
    (Rgb.INT0_vect { Rgb.init with ticks := 2 } = some { Rgb.init with ticks := 2 } ∧
      ∃ t, Rgb.INT0_vect { Rgb.init with ticks := 3 } = some t ∧ t.state = 1 ∧
        t.prev_ticks = 3) := by
  refine ⟨⟨?_, ?_, ?_⟩, ?_, ?_⟩
  · exact (debounce_threshold.1 { Adc.init with ticks := 1 } (by decide)).1 (by decide)
  · exact ((debounce_threshold.1 { Adc.init with ticks := 2 } (by decide)).2 (by decide)).1
  · exact ((debounce_threshold.1 { Adc.init with ticks := 2 } (by decide)).2 (by decide)).2.2
  · exact (debounce_threshold.2 { Rgb.init with ticks := 2 } (by decide) (by decide)).1
      (by decide)
  · obtain ⟨t, ht, hst, _, hp⟩ :=
      (debounce_threshold.2 { Rgb.init with ticks := 3 } (by decide) (by decide)).2 (by decide)
    exact ⟨t, ht, hst, hp⟩

/-! ## Outputs are dark while powered off -/

/-- C2: in every state reachable from the initial state, power state off
implies that every LED line is low (single-LED variant: any sequence of tick,
edge and sample-ready events; RGB variant: any sequence of tick and edge
events, each of which is defined). In particular an accepted edge event taken
in a reachable powered-on state of the RGB variant leaves all three lines
low, although it clears only the line `s2[i]`. -/
theorem off_means_dark :
    (∀ evs : List Adc.Event, (Adc.run Adc.init evs).state = 0 →
      lineHigh (Adc.run Adc.init evs).PORTB Adc.LED_PIN = false) ∧
    (∀ evs : List Rgb.Event, ∃ t, Rgb.run Rgb.init evs = some t ∧
      (t.state = 0 →
        lineHigh t.PORTB Rgb.RED_PIN = false ∧ lineHigh t.PORTB Rgb.GREEN_PIN = false ∧
        lineHigh t.PORTB Rgb.BLUE_PIN = false)) ∧
    (∀ (evs : List Rgb.Event) (t : Rgb.State), Rgb.run Rgb.init evs = some t →
      t.state ≠ 0 → Rgb.accepted t = true →
      ∃ u, Rgb.INT0_vect t = some u ∧ u.state = 0 ∧
        lineHigh u.PORTB Rgb.RED_PIN = false ∧ lineHigh u.PORTB Rgb.GREEN_PIN = false ∧
        lineHigh u.PORTB Rgb.BLUE_PIN = false) := by
  refine ⟨fun evs => ?_, fun evs => ?_, fun evs t ht hs ha => ?_⟩
  · exact Adc.offDark_run evs Adc.init (fun _ => by decide)
  · obtain ⟨t, ht, hinv⟩ := Rgb.rotInv_run evs Rgb.init Rgb.rotInv_init
    exact ⟨t, ht, fun h0 => Rgb.allLow_iff.1 (Rgb.rotInv_off t hinv h0)⟩
  · obtain ⟨t', ht', hinv⟩ := Rgb.rotInv_run evs Rgb.init Rgb.rotInv_init
    rw [ht] at ht'
    cases ht'
    obtain ⟨u, hu, hinvu⟩ := Rgb.rotInv_edge t hinv
    have hi : t.i < 3 := by
      simp only [Rgb.rotInv, Bool.and_eq_true, decide_eq_true_eq] at hinv
      exact hinv.1.1
    obtain ⟨trailing, _, h2, _⟩ := Rgb.reads_defined t.i hi
    have hu2 := Rgb.INT0_vect_accept_on t trailing ha hs h2
    rw [hu] at hu2
    have h0 : u.state = 0 := by
      cases hu2
      rfl
    exact ⟨u, hu, h0, Rgb.allLow_iff.1 (Rgb.rotInv_off u hinvu h0)⟩

/-- Instance of `off_means_dark`: the single-LED example execution lights the
LED and ends powered off with the LED line low; the RGB example execution
ends powered on with the red line high, and the edge event that follows
switches off with all three lines low. -/
theorem off_means_dark_witness :
    (lineHigh (Adc.run Adc.init (Adc.sessionOnOff.take 8)).PORTB Adc.LED_PIN = true ∧
      (Adc.run Adc.init Adc.sessionOnOff).state = 0 ∧
      lineHigh (Adc.run Adc.init Adc.sessionOnOff).PORTB Adc.LED_PIN = false) ∧
    (Rgb.run Rgb.init Rgb.sessionOn =
        some { ticks := 7, prev_ticks := 3, state := 1, i := 1, PORTB := 12 } ∧
      lineHigh 12 Rgb.RED_PIN = true) ∧
    (∃ t, Rgb.run Rgb.init (Rgb.sessionOn ++ [Rgb.Event.edge]) = some t ∧ t.state = 0 ∧
      lineHigh t.PORTB Rgb.RED_PIN = false ∧ lineHigh t.PORTB Rgb.GREEN_PIN = false ∧
      lineHigh t.PORTB Rgb.BLUE_PIN = false) ∧
    (∃ u, Rgb.INT0_vect { ticks := 7, prev_ticks := 3, state := 1, i := 1, PORTB := 12 } = some u ∧
      u.state = 0 ∧ lineHigh u.PORTB Rgb.RED_PIN = false ∧
      lineHigh u.PORTB Rgb.GREEN_PIN = false ∧ lineHigh u.PORTB Rgb.BLUE_PIN = false) := by
  have hrun : Rgb.run Rgb.init Rgb.sessionOn =
      some { ticks := 7, prev_ticks := 3, state := 1, i := 1, PORTB := 12 } := by decide
  refine ⟨⟨by decide, by decide, off_means_dark.1 Adc.sessionOnOff (by decide)⟩,
    ⟨hrun, by decide⟩, ?_, off_means_dark.2.2 Rgb.sessionOn _ hrun (by decide) (by decide)⟩
  obtain ⟨t, ht, hdark⟩ := off_means_dark.2.1 (Rgb.sessionOn ++ [Rgb.Event.edge])
  have hval : Rgb.run Rgb.init (Rgb.sessionOn ++ [Rgb.Event.edge]) =
      some { ticks := 7, prev_ticks := 7, state := 0, i := 1, PORTB := 4 } := by decide
  have h0 : t.state = 0 := by
    rw [hval] at ht
    cases ht
    rfl
  exact ⟨t, ht, h0, hdark h0⟩

/-! ## Sample handler: window and hysteresis -/

/-- C3 (the code at the claimed witnesses): after power-on with an empty
accumulator, four conversions of 350 leave the LED line low: no decision has
been taken, `avg` is untouched, `sum` is 1400 and `measurement_count` is 4.
It is the fifth conversion that decides, with `avg = 1750 / 4 = 437`.
Likewise four conversions of 100 arriving while the LED is lit leave it lit. -/
theorem four_samples_take_no_decision :
    Adc.run Adc.init [Adc.Event.tick, Adc.Event.tick, Adc.Event.edge] =
      { Adc.init with ticks := 2, prev_ticks := 2, state := 1 } ∧
    Adc.run { Adc.init with ticks := 2, prev_ticks := 2, state := 1 }
        [Adc.sampleOf 350, Adc.sampleOf 350, Adc.sampleOf 350, Adc.sampleOf 350] =
      { Adc.init with ticks := 2, prev_ticks := 2, state := 1, sum := 1400,
                      measurement_count := 4 } ∧
    lineHigh Adc.init.PORTB Adc.LED_PIN = false ∧
    Adc.ADC_vect { Adc.init with ticks := 2, prev_ticks := 2, state := 1, sum := 1400,
                                 measurement_count := 4 } (350 % 256) (350 / 256) =
      { Adc.init with ticks := 2, prev_ticks := 2, state := 1, avg := 437,
                      PORTB := portSet Adc.init.PORTB Adc.LED_PIN } ∧
    lineHigh (portSet Adc.init.PORTB Adc.LED_PIN) Adc.LED_PIN = true ∧
    Adc.run { Adc.init with ticks := 2, prev_ticks := 2, state := 1, avg := 437,
                            PORTB := portSet Adc.init.PORTB Adc.LED_PIN }
        [Adc.sampleOf 100, Adc.sampleOf 100, Adc.sampleOf 100, Adc.sampleOf 100] =
      { Adc.init with ticks := 2, prev_ticks := 2, state := 1, avg := 437, sum := 400,
                      measurement_count := 4,
                      PORTB := portSet Adc.init.PORTB Adc.LED_PIN } := by
  decide

/-- Value stored in `avg` by the decision branch of `ISR(ADC_vect)`. -/
theorem ADC_vect_decision (s : Adc.State) (adcl adch a : Nat)
    (hon : s.state ≠ 0) (hfull : 4 ≤ s.measurement_count)
    (ha : a = ((s.sum + (((adch % 256) <<< 8) ||| (adcl % 256))) % 65536
      / s.measurement_count) % 65536) :
    Adc.ADC_vect s adcl adch =
      { s with
        sum := 0
        measurement_count := 0
        avg := a
        PORTB :=
          if 300 < a then portSet s.PORTB Adc.LED_PIN
          else if a < 200 then portClear s.PORTB Adc.LED_PIN
          else s.PORTB } := by
  subst ha
  unfold Adc.ADC_vect
  simp only [hon, if_false, ge_iff_le, hfull, if_true, gt_iff_lt]
  split_ifs <;> rfl

/-- C4: when the sample-ready handler reaches its decision branch (powered on,
`measurement_count ≥ 4`), the stored `avg` is the quotient of the updated
`sum` by `measurement_count`; afterwards the LED line is high if `avg > 300`,
low if `avg < 200`, and the port register is as before if `200 ≤ avg ≤ 300`;
in every case `sum` and `measurement_count` are 0. -/
theorem hysteresis_decision (s : Adc.State) (adcl adch : Nat)
    (hon : s.state ≠ 0) (hfull : 4 ≤ s.measurement_count) :
    (Adc.ADC_vect s adcl adch).avg =
      ((s.sum + (((adch % 256) <<< 8) ||| (adcl % 256))) % 65536 / s.measurement_count)
        % 65536 ∧
    (300 < (Adc.ADC_vect s adcl adch).avg →
      lineHigh (Adc.ADC_vect s adcl adch).PORTB Adc.LED_PIN = true) ∧
    ((Adc.ADC_vect s adcl adch).avg < 200 →
      lineHigh (Adc.ADC_vect s adcl adch).PORTB Adc.LED_PIN = false) ∧
    (200 ≤ (Adc.ADC_vect s adcl adch).avg → (Adc.ADC_vect s adcl adch).avg ≤ 300 →
      (Adc.ADC_vect s adcl adch).PORTB = s.PORTB) ∧
    (Adc.ADC_vect s adcl adch).sum = 0 ∧
    (Adc.ADC_vect s adcl adch).measurement_count = 0 := by
  rw [ADC_vect_decision s adcl adch _ hon hfull rfl]
  refine ⟨rfl, fun h => ?_, fun h => ?_, fun h1 h2 => ?_, rfl, rfl⟩
  · simp only [] at h ⊢
    rw [if_pos h]
    simp [lineHigh_portSet, Adc.LED_PIN]
  · simp only [] at h ⊢
    rw [if_neg (by omega), if_pos h]
    simp [lineHigh_portClear]
  · simp only [] at h1 h2 ⊢
    rw [if_neg (by omega), if_neg (by omega)]

/-- Instance of `hysteresis_decision`: with `sum = 1000` and
`measurement_count = 4`, a conversion of 200 gives `avg = 300`, the upper
boundary, and the port register is unchanged. -/
theorem hysteresis_decision_witness :
    (Adc.ADC_vect { Adc.init with state := 1, sum := 1000, measurement_count := 4 } 200 0).avg
      = 300 ∧
    (Adc.ADC_vect { Adc.init with state := 1, sum := 1000, measurement_count := 4 } 200 0).PORTB
      = Adc.init.PORTB ∧
    (Adc.ADC_vect { Adc.init with state := 1, sum := 1000, measurement_count := 4 } 200 0).sum
      = 0 ∧
    (Adc.ADC_vect { Adc.init with state := 1, sum := 1000,
                                  measurement_count := 4 } 200 0).measurement_count = 0 := by
  have h := hysteresis_decision
    { Adc.init with state := 1, sum := 1000, measurement_count := 4 } 200 0
    (by decide) (by decide)
  exact ⟨by decide, h.2.2.2.1 (by decide) (by decide), h.2.2.2.2.1, h.2.2.2.2.2⟩

/-! ## Rotation -/

/-- C5: in the RGB variant, from every powered-on state with rotation index
`i < 3`, three consecutive tick events are defined, each maps `i` to
`(i + 1) mod 3` and writes the port register as "clear `s2[i]`, then set
`s1[i]`", the third returns `i` to its starting value, and the three
(trailing, leading) pairs used are the three pairs `(s2[k], s1[k])`, each
exactly once. -/
theorem full_rotation_in_three_ticks (s : Rgb.State) (hon : s.state ≠ 0) (hi : s.i < 3) :
    ∃ t1 t2 t3 : Rgb.State,
      Rgb.TIMER1_OVF_vect s = some t1 ∧ Rgb.TIMER1_OVF_vect t1 = some t2 ∧
      Rgb.TIMER1_OVF_vect t2 = some t3 ∧
      t1.i = (s.i + 1) % 3 ∧ t2.i = (t1.i + 1) % 3 ∧ t3.i = (t2.i + 1) % 3 ∧
      t3.i = s.i ∧
      (∀ p, Rgb.pairUsed s = some p → t1.PORTB = portSet (portClear s.PORTB p.1) p.2) ∧
      (∀ p, Rgb.pairUsed t1 = some p → t2.PORTB = portSet (portClear t1.PORTB p.1) p.2) ∧
      (∀ p, Rgb.pairUsed t2 = some p → t3.PORTB = portSet (portClear t2.PORTB p.1) p.2) ∧
      List.Perm [Rgb.pairUsed s, Rgb.pairUsed t1, Rgb.pairUsed t2]
        ((Rgb.s2.zip Rgb.s1).map some) ∧
      List.Perm [s.i, t1.i, t2.i] [0, 1, 2] := by
  obtain ⟨a0, b0, h20, h10⟩ := Rgb.reads_defined s.i hi
  have e1 := Rgb.TIMER1_OVF_vect_on s a0 b0 hon hi h20 h10
  generalize ht1 : ({ s with
    ticks := (s.ticks + 1) % 256
    i := (s.i + 1) % 3
    PORTB := portSet (portClear s.PORTB a0) b0 } : Rgb.State) = t1 at e1
  have hon1 : t1.state ≠ 0 := by rw [← ht1]; exact hon
  have hi1 : t1.i = (s.i + 1) % 3 := by rw [← ht1]
  have hp1 : t1.PORTB = portSet (portClear s.PORTB a0) b0 := by rw [← ht1]
  have hlt1 : t1.i < 3 := by omega
  obtain ⟨a1, b1, h21, h11⟩ := Rgb.reads_defined t1.i hlt1
  have e2 := Rgb.TIMER1_OVF_vect_on t1 a1 b1 hon1 hlt1 h21 h11
  generalize ht2 : ({ t1 with
    ticks := (t1.ticks + 1) % 256
    i := (t1.i + 1) % 3
    PORTB := portSet (portClear t1.PORTB a1) b1 } : Rgb.State) = t2 at e2
  have hon2 : t2.state ≠ 0 := by rw [← ht2]; exact hon1
  have hi2 : t2.i = (t1.i + 1) % 3 := by rw [← ht2]
  have hp2 : t2.PORTB = portSet (portClear t1.PORTB a1) b1 := by rw [← ht2]
  have hlt2 : t2.i < 3 := by omega
  obtain ⟨a2, b2, h22, h12⟩ := Rgb.reads_defined t2.i hlt2
  have e3 := Rgb.TIMER1_OVF_vect_on t2 a2 b2 hon2 hlt2 h22 h12
  generalize ht3 : ({ t2 with
    ticks := (t2.ticks + 1) % 256
    i := (t2.i + 1) % 3
    PORTB := portSet (portClear t2.PORTB a2) b2 } : Rgb.State) = t3 at e3
  have hi3 : t3.i = (t2.i + 1) % 3 := by rw [← ht3]
  have hp3 : t3.PORTB = portSet (portClear t2.PORTB a2) b2 := by rw [← ht3]
  have hu0 : Rgb.pairUsed s = some (a0, b0) := by simp [Rgb.pairUsed, h20, h10]
  have hu1 : Rgb.pairUsed t1 = some (a1, b1) := by simp [Rgb.pairUsed, h21, h11]
  have hu2 : Rgb.pairUsed t2 = some (a2, b2) := by simp [Rgb.pairUsed, h22, h12]
  refine ⟨t1, t2, t3, e1, e2, e3, hi1, hi2, hi3, by omega, ?_, ?_, ?_, ?_, ?_⟩
  · intro q hq
    rw [hu0] at hq
    cases hq
    exact hp1
  · intro q hq
    rw [hu1] at hq
    cases hq
    exact hp2
  · intro q hq
    rw [hu2] at hq
    cases hq
    exact hp3
  · rw [Rgb.pairUsed_eq s, Rgb.pairUsed_eq t1, Rgb.pairUsed_eq t2, hi2, hi1]
    generalize s.i = k at hi
    interval_cases k <;> decide
  · rw [hi2, hi1]
    generalize s.i = k at hi
    interval_cases k <;> decide

/-- Instance of `full_rotation_in_three_ticks` at `i = 0`, powered on: the
indices used are 0, 1, 2 and the index is 0 again after the third tick. -/
theorem full_rotation_in_three_ticks_witness :
    ∃ t1 t2 t3 : Rgb.State,
      Rgb.TIMER1_OVF_vect { Rgb.init with state := 1 } = some t1 ∧
      Rgb.TIMER1_OVF_vect t1 = some t2 ∧ Rgb.TIMER1_OVF_vect t2 = some t3 ∧
      [Rgb.init.i, t1.i, t2.i] = [0, 1, 2] ∧ t3.i = 0 := by
  obtain ⟨t1, t2, t3, h1, h2, h3, e1, e2, e3, e0, _⟩ :=
    full_rotation_in_three_ticks { Rgb.init with state := 1 } (by decide) (by decide)
  have a1 : t1.i = 1 := e1
  have a2 : t2.i = 2 := by rw [e2, a1]
  exact ⟨t1, t2, t3, h1, h2, h3, by rw [a1, a2]; rfl, e0⟩

/-! ## Tick counter and gating by the power state -/

/-- C9: in both variants a tick event sets `ticks` to `(ticks + 1) mod 256`
whatever the power state, and the edge handler and the sample-ready handler
leave `ticks` unchanged. In the RGB variant the handlers are defined whenever
`i < 3` (the tick handler also whenever the power state is off). -/
theorem tick_counter :
    (∀ s : Adc.State,
      (Adc.TIMER1_OVF_vect s).ticks = (s.ticks + 1) % 256 ∧
      (Adc.INT0_vect s).ticks = s.ticks ∧
      ∀ adcl adch, (Adc.ADC_vect s adcl adch).ticks = s.ticks) ∧
    (∀ s : Rgb.State, s.state = 0 ∨ s.i < 3 →
      ∃ t, Rgb.TIMER1_OVF_vect s = some t ∧ t.ticks = (s.ticks + 1) % 256) ∧
    (∀ s : Rgb.State, s.i < 3 → ∃ t, Rgb.INT0_vect s = some t ∧ t.ticks = s.ticks) ∧
    (∀ s t : Rgb.State, Rgb.TIMER1_OVF_vect s = some t → t.ticks = (s.ticks + 1) % 256) ∧
    (∀ s t : Rgb.State, Rgb.INT0_vect s = some t → t.ticks = s.ticks) := by
  refine ⟨fun s => ⟨rfl, Adc.INT0_vect_ticks s, Adc.ADC_vect_ticks s⟩, fun s h => ?_,
    fun s hi => ?_, fun s t h => ?_, fun s t h => ?_⟩
  · by_cases hs : s.state = 0
    · exact ⟨_, Rgb.TIMER1_OVF_vect_off s hs, rfl⟩
    · have hi : s.i < 3 := h.resolve_left hs
      obtain ⟨a, b, h2, h1⟩ := Rgb.reads_defined s.i hi
      exact ⟨_, Rgb.TIMER1_OVF_vect_on s a b hs hi h2 h1, rfl⟩
  · exact Rgb.INT0_vect_ticks_of_lt s hi
  · exact Rgb.TIMER1_OVF_vect_ticks s t h
  · exact Rgb.rgb_INT0_vect_ticks s t h

/-- Instance of `tick_counter`: the counter wraps from 255 to 0, also while
powered on in the RGB variant, and an edge event at `ticks = 255` keeps it. -/
theorem tick_counter_witness :
    (Adc.TIMER1_OVF_vect { Adc.init with ticks := 255 }).ticks = 0 ∧
    (∃ t, Rgb.TIMER1_OVF_vect { Rgb.init with ticks := 255, state := 1 } = some t ∧
      t.ticks = 0) ∧
    (∃ t, Rgb.INT0_vect { Rgb.init with ticks := 255, state := 1 } = some t ∧ t.ticks = 255) ∧
    (Rgb.TIMER1_OVF_vect { Rgb.init with ticks := 255 } = some Rgb.init →
      Rgb.init.ticks = (255 + 1) % 256) := by
  refine ⟨(tick_counter.1 { Adc.init with ticks := 255 }).1,
    tick_counter.2.1 { Rgb.init with ticks := 255, state := 1 } (Or.inr (by decide)),
    tick_counter.2.2.1 { Rgb.init with ticks := 255, state := 1 } (by decide),
    tick_counter.2.2.2.1 { Rgb.init with ticks := 255 } Rgb.init⟩

/-- C10: while the power state is off, a sample-ready event of the single-LED
variant returns the state unchanged, and a tick event of the RGB variant
changes `ticks` and nothing else. -/
theorem power_state_gates_actuation :
    (∀ (s : Adc.State) (adcl adch : Nat), s.state = 0 → Adc.ADC_vect s adcl adch = s) ∧
    (∀ s : Rgb.State, s.state = 0 →
      Rgb.TIMER1_OVF_vect s = some { s with ticks := (s.ticks + 1) % 256 }) :=
  ⟨Adc.ADC_vect_off, Rgb.TIMER1_OVF_vect_off⟩

/-- Instance of `power_state_gates_actuation` at states with stale contents:
a partial window and a lit LED in the single-LED variant, rotation index 2
and a lit line in the RGB variant. -/
theorem power_state_gates_actuation_witness :
    Adc.ADC_vect { Adc.init with sum := 700, measurement_count := 2, PORTB := 13 } 255 3 =
      { Adc.init with sum := 700, measurement_count := 2, PORTB := 13 } ∧
    Rgb.TIMER1_OVF_vect { Rgb.init with ticks := 255, i := 2, PORTB := 5 } =
      some { Rgb.init with ticks := 0, i := 2, PORTB := 5 } :=
  ⟨power_state_gates_actuation.1 _ 255 3 (by decide),
    power_state_gates_actuation.2 { Rgb.init with ticks := 255, i := 2, PORTB := 5 }
      (by decide)⟩

/-! ## Bounce suppression -/

namespace Adc

theorem changes_tick (s : State) (es : List Event) :
    changes s (Event.tick :: es) = changes (TIMER1_OVF_vect s) es := by
  simp [changes, step, TIMER1_OVF_vect]

theorem changes_sample (s : State) (adcl adch : Nat) (es : List Event) :
    changes s (Event.sample adcl adch :: es) = changes (ADC_vect s adcl adch) es := by
  simp [changes, step, ADC_vect_state]

theorem changes_edge (s : State) (es : List Event) :
    changes s (Event.edge :: es) =
      (if accepted s = true then 1 else 0) + changes (INT0_vect s) es := by
  cases h : accepted s
  · simp [changes, step, INT0_vect_state_discard s h]
  · have hne : (INT0_vect s).state ≠ s.state := by
      rw [INT0_vect_accept s h]
      exact flipped_ne s.state
    simp [changes, step, hne]

/-- Once a tick has followed an edge event, a bounce train with gap bound 1
holds no further edge event, so the power state stays. -/
theorem changes_zero_after_tick (evs : List Event) :
    ∀ (s : State) (k : Nat), 1 ≤ k → bounce 1 (some k) evs = true → changes s evs = 0 := by
  induction evs with
  | nil => intro s k _ _; rfl
  | cons e es ih =>
    intro s k hk hb
    cases e with
    | tick =>
      rw [changes_tick]
      exact ih _ (k + 1) (by omega) hb
    | edge =>
      simp only [bounce, Bool.and_eq_true, decide_eq_true_eq] at hb
      omega
    | sample adcl adch =>
      rw [changes_sample]
      exact ih _ k hk hb

/-- Right after an edge event every further edge event of a bounce train with
gap bound 1 is discarded. -/
theorem changes_zero_settled (evs : List Event) :
    ∀ s : State, s.ticks ≤ s.prev_ticks + 1 → bounce 1 (some 0) evs = true →
      changes s evs = 0 := by
  induction evs with
  | nil => intro s _ _; rfl
  | cons e es ih =>
    intro s hs hb
    cases e with
    | tick =>
      rw [changes_tick]
      exact changes_zero_after_tick es _ 1 (by omega) hb
    | edge =>
      have ha : accepted s = false := (accepted_false_iff s).2 hs
      simp only [bounce, Bool.and_eq_true, decide_eq_true_eq] at hb
      rw [changes_edge, ha, ih _ (INT0_vect_settled s) hb.2]
      rfl
    | sample adcl adch =>
      rw [changes_sample]
      refine ih _ ?_ hb
      rw [ADC_vect_ticks, ADC_vect_prev_ticks]
      exact hs

theorem changes_le_one_of_bounce (evs : List Event) :
    ∀ s : State, bounce 1 none evs = true → changes s evs ≤ 1 := by
  induction evs with
  | nil => intro s _; exact Nat.zero_le 1
  | cons e es ih =>
    intro s hb
    cases e with
    | tick =>
      rw [changes_tick]
      exact ih _ hb
    | edge =>
      rw [changes_edge, changes_zero_settled es _ (INT0_vect_settled s) hb]
      split_ifs <;> omega
    | sample adcl adch =>
      rw [changes_sample]
      exact ih _ hb

end Adc

namespace Rgb

theorem flipped_ne_self (st : Nat) : flipped st ≠ st := by
  unfold flipped
  split_ifs <;> omega

/-- Inside the arrays a tick event is defined; it keeps the index inside the
arrays and leaves the power state and `prev_ticks` alone. -/
theorem tick_defined (s : State) (hi : s.i < 3) :
    ∃ t, TIMER1_OVF_vect s = some t ∧ t.i < 3 ∧ t.state = s.state ∧
      t.prev_ticks = s.prev_ticks ∧ t.ticks = (s.ticks + 1) % 256 := by
  by_cases hs : s.state = 0
  · exact ⟨_, TIMER1_OVF_vect_off s hs, hi, rfl, rfl, rfl⟩
  · obtain ⟨a, b, h2, h1⟩ := reads_defined s.i hi
    exact ⟨_, TIMER1_OVF_vect_on s a b hs hi h2 h1, Nat.mod_lt _ (by omega), rfl, rfl, rfl⟩

/-- Inside the arrays an edge event is defined; it keeps the index and the
tick counter, and either is discarded or flips the power state. -/
theorem edge_defined (s : State) (hi : s.i < 3) :
    ∃ t, INT0_vect s = some t ∧ t.i = s.i ∧ t.ticks = s.ticks ∧
      (accepted s = false → t.state = s.state ∧ t.prev_ticks = clamped s) ∧
      (accepted s = true → t.state = flipped s.state ∧ t.prev_ticks = s.ticks) := by
  cases ha : accepted s
  · exact ⟨_, rgb_INT0_vect_discard s ha, rfl, rfl, fun _ => ⟨rfl, rfl⟩,
      fun h => Bool.noConfusion h⟩
  · by_cases hs : s.state = 0
    · refine ⟨_, INT0_vect_accept_off s ha hs, rfl, rfl, fun h => Bool.noConfusion h,
        fun _ => ⟨?_, rfl⟩⟩
      simp [flipped, hs]
    · obtain ⟨a, _, h2, _⟩ := reads_defined s.i hi
      refine ⟨_, INT0_vect_accept_on s a ha hs h2, rfl, rfl, fun h => Bool.noConfusion h,
        fun _ => ⟨?_, rfl⟩⟩
      simp [flipped, hs]

theorem changes_cons (s t : State) (e : Event) (es : List Event) (h : step s e = some t) :
    changes s (e :: es) =
      (changes t es).map (fun n => (if t.state ≠ s.state then 1 else 0) + n) := by
  simp only [changes, h]
  cases changes t es <;> rfl

theorem ticks_le_clamped (s : State) (k : Nat) (h : s.ticks ≤ s.prev_ticks + k) :
    s.ticks ≤ clamped s + k := by
  unfold clamped
  split_ifs <;> omega

/-- After an accepted edge event, or whenever `ticks ≤ prev_ticks + k` with `k`
ticks elapsed since the first edge event, every further edge event of a burst
shorter than `T ≤ 3` ticks is discarded. -/
theorem changes_zero_of_burst (T : Nat) (hT : T ≤ 3) (evs : List Event) :
    ∀ (s : State) (k : Nat), s.i < 3 → s.ticks ≤ s.prev_ticks + k →
      burst T (some k) evs = true → changes s evs = some 0 := by
  induction evs with
  | nil => intro s k _ _ _; rfl
  | cons e es ih =>
    intro s k hi hs hb
    cases e with
    | tick =>
      obtain ⟨t, ht, hti, hst, hp, htk⟩ := tick_defined s hi
      have hstep : step s Event.tick = some t := ht
      rw [changes_cons s t _ es hstep, ih t (k + 1) hti (by omega) hb]
      simp [hst]
    | edge =>
      simp only [burst, Bool.and_eq_true, decide_eq_true_eq] at hb
      have ha : accepted s = false := (rgb_accepted_false_iff s).2 (by omega)
      obtain ⟨t, ht, hti, htk, hd, _⟩ := edge_defined s hi
      have hstep : step s Event.edge = some t := ht
      have h2 := ticks_le_clamped s k hs
      rw [changes_cons s t _ es hstep,
        ih t k (by omega) (by rw [htk, (hd ha).2]; exact h2) hb.2]
      simp [(hd ha).1]

theorem changes_le_one_of_burst_some (T : Nat) (hT : T ≤ 3) (evs : List Event) :
    ∀ (s : State) (k : Nat), s.i < 3 → burst T (some k) evs = true →
      ∃ n, changes s evs = some n ∧ n ≤ 1 := by
  induction evs with
  | nil => intro s k _ _; exact ⟨0, rfl, Nat.zero_le 1⟩
  | cons e es ih =>
    intro s k hi hb
    cases e with
    | tick =>
      obtain ⟨t, ht, hti, hst, _, _⟩ := tick_defined s hi
      have hstep : step s Event.tick = some t := ht
      obtain ⟨n, hn, hle⟩ := ih t (k + 1) hti hb
      refine ⟨n, ?_, hle⟩
      rw [changes_cons s t _ es hstep, hn]
      simp [hst]
    | edge =>
      simp only [burst, Bool.and_eq_true, decide_eq_true_eq] at hb
      obtain ⟨t, ht, hti, htk, hd, hacc⟩ := edge_defined s hi
      have hstep : step s Event.edge = some t := ht
      cases ha : accepted s
      · obtain ⟨n, hn, hle⟩ := ih t k (by omega) hb.2
        refine ⟨n, ?_, hle⟩
        rw [changes_cons s t _ es hstep, hn]
        simp [(hd ha).1]
      · have hz := changes_zero_of_burst T hT es t k (by omega)
          (by rw [htk, (hacc ha).2]; omega) hb.2
        refine ⟨1, ?_, Nat.le_refl 1⟩
        rw [changes_cons s t _ es hstep, hz]
        have hne : t.state ≠ s.state := by
          rw [(hacc ha).1]
          exact flipped_ne_self s.state
        simp [hne]

theorem changes_le_one_of_burst (T : Nat) (hT : T ≤ 3) (evs : List Event) :
    ∀ s : State, s.i < 3 → burst T none evs = true →
      ∃ n, changes s evs = some n ∧ n ≤ 1 := by
  induction evs with
  | nil => intro s _ _; exact ⟨0, rfl, Nat.zero_le 1⟩
  | cons e es ih =>
    intro s hi hb
    cases e with
    | tick =>
      obtain ⟨t, ht, hti, hst, _, _⟩ := tick_defined s hi
      have hstep : step s Event.tick = some t := ht
      obtain ⟨n, hn, hle⟩ := ih t hti hb
      refine ⟨n, ?_, hle⟩
      rw [changes_cons s t _ es hstep, hn]
      simp [hst]
    | edge =>
      have hb0 : burst T (some 0) es = true := hb
      obtain ⟨t, ht, hti, htk, hd, hacc⟩ := edge_defined s hi
      have hstep : step s Event.edge = some t := ht
      cases ha : accepted s
      · obtain ⟨n, hn, hle⟩ := changes_le_one_of_burst_some T hT es t 0 (by omega) hb0
        refine ⟨n, ?_, hle⟩
        rw [changes_cons s t _ es hstep, hn]
        simp [(hd ha).1]
      · have hz := changes_zero_of_burst T hT es t 0 (by omega)
          (by rw [htk, (hacc ha).2]; omega) hb0
        refine ⟨1, ?_, Nat.le_refl 1⟩
        rw [changes_cons s t _ es hstep, hz]
        have hne : t.state ≠ s.state := by
          rw [(hacc ha).1]
          exact flipped_ne_self s.state
        simp [hne]

end Rgb

/-- C6 (as stated, refuted in the RGB variant): in `Rgb.bounceTrain` every edge
event comes one tick, fewer than 2, after the edge event before it, yet the
power state changes twice: the first edge event (at `ticks = 3`) switches on,
the next two are discarded without updating `prev_ticks`, and the fourth (at
`ticks = 6`, with `prev_ticks = 3`) switches off again. -/
theorem bounce_suppression_as_stated_fails :
    Rgb.bounce 2 none Rgb.bounceTrain = true ∧
    Rgb.run Rgb.init (Rgb.bounceTrain.take 4) =
      some { Rgb.init with ticks := 3, prev_ticks := 3, state := 1 } ∧
    Rgb.run Rgb.init (Rgb.bounceTrain.take 9) =
      some { ticks := 6, prev_ticks := 3, state := 1, i := 0,
             PORTB := portSet Rgb.init.PORTB Rgb.BLUE_PIN } ∧
    Rgb.run Rgb.init Rgb.bounceTrain = some { Rgb.init with ticks := 6, prev_ticks := 6 } ∧
    Rgb.changes Rgb.init Rgb.bounceTrain = some 2 := by
  decide

/-- C6 (amended): the power state changes at most once over an event sequence,
from any state, when in the single-LED variant every edge event occurs fewer
than 1 tick after the edge event before it, and when in the RGB variant (with
rotation index `i < 3`) every edge event occurs fewer than 2 ticks after the
first edge event of the sequence. -/
theorem bounce_suppression :
    (∀ (s : Adc.State) (evs : List Adc.Event),
      Adc.bounce 1 none evs = true → Adc.changes s evs ≤ 1) ∧
    (∀ (s : Rgb.State) (evs : List Rgb.Event), s.i < 3 →
      Rgb.burst 2 none evs = true → ∃ n, Rgb.changes s evs = some n ∧ n ≤ 1) :=
  ⟨fun s evs h => Adc.changes_le_one_of_bounce evs s h,
    fun s evs hi h => Rgb.changes_le_one_of_burst 2 (by omega) evs s hi h⟩

/-- Instance of `bounce_suppression`: three edge events on the same tick
(single-LED) and three edge events within one tick (RGB) change the power
state once. -/
theorem bounce_suppression_witness :
    (Adc.bounce 1 none Adc.bounceTrain = true ∧ Adc.changes Adc.init Adc.bounceTrain = 1 ∧
      Adc.changes Adc.init Adc.bounceTrain ≤ 1) ∧
    (Rgb.burst 2 none Rgb.shortBurst = true ∧ Rgb.changes Rgb.init Rgb.shortBurst = some 1 ∧
      ∃ n, Rgb.changes Rgb.init Rgb.shortBurst = some n ∧ n ≤ 1) :=
  ⟨⟨by decide, by decide, bounce_suppression.1 Adc.init Adc.bounceTrain (by decide)⟩,
    ⟨by decide, by decide,
      bounce_suppression.2 Rgb.init Rgb.shortBurst (by decide) (by decide)⟩⟩

/-! ## Accepted events alternate the power state -/

namespace Adc

theorem run_state_parity (evs : List Event) :
    ∀ s : State, (run s evs).state ≠ 0 ↔
      (if s.state ≠ 0 then acceptedCount s evs % 2 = 0 else acceptedCount s evs % 2 = 1) := by
  induction evs with
  | nil =>
    intro s
    show s.state ≠ 0 ↔ _
    split_ifs with h <;> simp [acceptedCount, h]
  | cons e es ih =>
    intro s
    cases e with
    | tick => exact ih (TIMER1_OVF_vect s)
    | sample adcl adch =>
      have h := ih (ADC_vect s adcl adch)
      rw [ADC_vect_state] at h
      exact h
    | edge =>
      have h := ih (INT0_vect s)
      show (run (INT0_vect s) es).state ≠ 0 ↔ _
      rw [h]
      cases ha : accepted s
      · rw [INT0_vect_state_discard s ha]
        simp [acceptedCount, ha]
      · have hst : (INT0_vect s).state = flipped s.state := by rw [INT0_vect_accept s ha]
        rw [hst]
        by_cases h0 : s.state = 0
        · have hf : flipped s.state = 1 := by simp [flipped, h0]
          rw [hf]
          simp only [acceptedCount, ha, h0]
          simp
          omega
        · have hf : flipped s.state = 0 := by simp [flipped, h0]
          rw [hf]
          simp only [acceptedCount, ha]
          simp [h0]
          omega

end Adc

namespace Rgb

theorem rgb_run_state_parity (evs : List Event) :
    ∀ s : State, s.i < 3 → ∃ t n, run s evs = some t ∧ acceptedCount s evs = some n ∧
      (t.state ≠ 0 ↔ (if s.state ≠ 0 then n % 2 = 0 else n % 2 = 1)) := by
  induction evs with
  | nil =>
    intro s _
    refine ⟨s, 0, rfl, rfl, ?_⟩
    split_ifs with h <;> simp [h]
  | cons e es ih =>
    intro s hi
    cases e with
    | tick =>
      obtain ⟨t, ht, hti, hst, _, _⟩ := tick_defined s hi
      obtain ⟨u, n, hu, hn, hiff⟩ := ih t hti
      refine ⟨u, n, ?_, ?_, ?_⟩
      · simp [run, step, ht, hu]
      · simp [acceptedCount, ht, hn]
      · rw [hst] at hiff
        exact hiff
    | edge =>
      obtain ⟨t, ht, hti, _, hd, hacc⟩ := edge_defined s hi
      obtain ⟨u, n, hu, hn, hiff⟩ := ih t (by omega)
      refine ⟨u, (if accepted s = true then 1 else 0) + n, ?_, ?_, ?_⟩
      · simp [run, step, ht, hu]
      · simp [acceptedCount, ht, hn]
      · rw [hiff]
        cases ha : accepted s
        · rw [(hd ha).1]
          simp
        · rw [(hacc ha).1]
          by_cases h0 : s.state = 0
          · have hf : flipped s.state = 1 := by simp [flipped, h0]
            rw [hf]
            simp [h0]
            omega
          · have hf : flipped s.state = 0 := by simp [flipped, h0]
            rw [hf]
            simp [h0]
            omega

end Rgb

/-- C7: in both variants an accepted edge event flips the power state (0 to 1,
nonzero to 0) and sets `prev_ticks` to `ticks`; and after any event sequence
from the initial state the power state is on exactly when the number of
accepted edge events in the sequence is odd. -/
theorem accepted_events_alternate :
    (∀ s : Adc.State, Adc.accepted s = true →
      (Adc.INT0_vect s).state = Adc.flipped s.state ∧
      (Adc.INT0_vect s).prev_ticks = s.ticks) ∧
    (∀ evs : List Adc.Event,
      (Adc.run Adc.init evs).state ≠ 0 ↔ Adc.acceptedCount Adc.init evs % 2 = 1) ∧
    (∀ s : Rgb.State, s.i < 3 → Rgb.accepted s = true →
      ∃ t, Rgb.INT0_vect s = some t ∧ t.state = Rgb.flipped s.state ∧
        t.prev_ticks = s.ticks) ∧
    (∀ evs : List Rgb.Event, ∃ t n, Rgb.run Rgb.init evs = some t ∧
      Rgb.acceptedCount Rgb.init evs = some n ∧ (t.state ≠ 0 ↔ n % 2 = 1)) := by
  refine ⟨fun s ha => ?_, fun evs => ?_, fun s hi ha => ?_, fun evs => ?_⟩
  · rw [Adc.INT0_vect_accept s ha]
    exact ⟨rfl, rfl⟩
  · have h := Adc.run_state_parity evs Adc.init
    rw [if_neg (by decide)] at h
    exact h
  · obtain ⟨t, ht, _, _, _, hacc⟩ := Rgb.edge_defined s hi
    exact ⟨t, ht, hacc ha⟩
  · obtain ⟨t, n, ht, hn, h⟩ := Rgb.rgb_run_state_parity evs Rgb.init (by decide)
    rw [if_neg (by decide)] at h
    exact ⟨t, n, ht, hn, h⟩

/-- Instance of `accepted_events_alternate`: accepted edge events taken while
on (single-LED, at `ticks = 9`) and while off (RGB, at `ticks = 3`), and the
example executions with two, respectively one, accepted edge events. -/
theorem accepted_events_alternate_witness :
    ((Adc.INT0_vect { Adc.init with ticks := 9, prev_ticks := 2, state := 1 }).state = 0 ∧
      (Adc.INT0_vect { Adc.init with ticks := 9, prev_ticks := 2, state := 1 }).prev_ticks
        = 9) ∧
    (Adc.acceptedCount Adc.init Adc.sessionOnOff = 2 ∧
      ((Adc.run Adc.init Adc.sessionOnOff).state ≠ 0 ↔
        Adc.acceptedCount Adc.init Adc.sessionOnOff % 2 = 1)) ∧
    (∃ t, Rgb.INT0_vect { Rgb.init with ticks := 3 } = some t ∧ t.state = 1 ∧
      t.prev_ticks = 3) ∧
    (Rgb.acceptedCount Rgb.init Rgb.sessionOn = some 1 ∧
      ∃ t n, Rgb.run Rgb.init Rgb.sessionOn = some t ∧
        Rgb.acceptedCount Rgb.init Rgb.sessionOn = some n ∧ (t.state ≠ 0 ↔ n % 2 = 1)) :=
  ⟨accepted_events_alternate.1 { Adc.init with ticks := 9, prev_ticks := 2, state := 1 }
      (by decide),
    ⟨by decide, accepted_events_alternate.2.1 Adc.sessionOnOff⟩,
    accepted_events_alternate.2.2.1 { Rgb.init with ticks := 3 } (by decide) (by decide),
    ⟨by decide, accepted_events_alternate.2.2.2 Rgb.sessionOn⟩⟩

/-! ## No acceptance without enough ticks -/

namespace Adc

theorem adc_ticks_le_clamped (s : State) (k : Nat) (h : s.ticks ≤ s.prev_ticks + k) :
    s.ticks ≤ clamped s + k := by
  unfold clamped
  split_ifs <;> omega

/-- With `k` tick events since the last accepted edge event,
`ticks ≤ prev_ticks + k`, also across a wrap of the counter. -/
theorem since_bound (evs : List Event) :
    ∀ (s : State) (g : Option Nat), (∀ k, g = some k → s.ticks ≤ s.prev_ticks + k) →
      ∀ k, sinceAccepted s g evs = some k →
        (run s evs).ticks ≤ (run s evs).prev_ticks + k := by
  induction evs with
  | nil => intro s g hg k hk; exact hg k hk
  | cons e es ih =>
    intro s g hg k hk
    cases e with
    | tick =>
      refine ih (TIMER1_OVF_vect s) (g.map (· + 1)) ?_ k hk
      intro j hj
      cases g with
      | none => cases hj
      | some j0 =>
        have h0 := hg j0 rfl
        have hj' : j0 + 1 = j := by simpa using hj
        show (s.ticks + 1) % 256 ≤ s.prev_ticks + j
        have := Nat.mod_le (s.ticks + 1) 256
        omega
    | sample adcl adch =>
      refine ih (ADC_vect s adcl adch) g ?_ k hk
      intro j hj
      rw [ADC_vect_ticks, ADC_vect_prev_ticks]
      exact hg j hj
    | edge =>
      refine ih (INT0_vect s) (if accepted s = true then some 0 else g) ?_ k hk
      intro j hj
      cases ha : accepted s
      · rw [ha] at hj
        rw [INT0_vect_discard s ha]
        exact adc_ticks_le_clamped s j (hg j hj)
      · rw [INT0_vect_accept s ha]
        exact Nat.le_add_right _ _

end Adc

namespace Rgb

/-- With `k` tick events since the last accepted edge event,
`ticks ≤ prev_ticks + k`, also across a wrap of the counter. -/
theorem rgb_since_bound (evs : List Event) :
    ∀ (s : State) (g : Option Nat), s.i < 3 →
      (∀ k, g = some k → s.ticks ≤ s.prev_ticks + k) →
      ∀ k, sinceAccepted s g evs = some k →
        ∃ t, run s evs = some t ∧ t.ticks ≤ t.prev_ticks + k := by
  induction evs with
  | nil => intro s g _ hg k hk; exact ⟨s, rfl, hg k hk⟩
  | cons e es ih =>
    intro s g hi hg k hk
    cases e with
    | tick =>
      obtain ⟨t, ht, hti, _, hp, htk⟩ := tick_defined s hi
      have hk' : sinceAccepted t (g.map (· + 1)) es = some k := by
        simpa [sinceAccepted, ht] using hk
      have hpre : ∀ j, g.map (· + 1) = some j → t.ticks ≤ t.prev_ticks + j := by
        intro j hj
        cases g with
        | none => cases hj
        | some j0 =>
          have h0 := hg j0 rfl
          have hj' : j0 + 1 = j := by simpa using hj
          rw [htk, hp]
          have := Nat.mod_le (s.ticks + 1) 256
          omega
      obtain ⟨u, hu, hle⟩ := ih t (g.map (· + 1)) hti hpre k hk'
      exact ⟨u, by simp [run, step, ht, hu], hle⟩
    | edge =>
      obtain ⟨t, ht, hti, htk, hd, hacc⟩ := edge_defined s hi
      have hk' : sinceAccepted t (if accepted s = true then some 0 else g) es = some k := by
        simpa [sinceAccepted, ht] using hk
      have hpre : ∀ j, (if accepted s = true then some 0 else g) = some j →
          t.ticks ≤ t.prev_ticks + j := by
        intro j hj
        cases ha : accepted s
        · rw [ha] at hj
          rw [htk, (hd ha).2]
          exact ticks_le_clamped s j (hg j hj)
        · rw [htk, (hacc ha).2]
          exact Nat.le_add_right _ _
      obtain ⟨u, hu, hle⟩ := ih t _ (by omega) hpre k hk'
      exact ⟨u, by simp [run, step, ht, hu], hle⟩

end Rgb

/-- C8: over every event sequence from the initial state, when fewer tick
events than 1 (single-LED variant) or 2 (RGB variant) have occurred since the
last accepted edge event, an edge event arriving next is not accepted; the
number of ticks is counted on the events themselves, so a wrap of the 8-bit
counter in between is covered. -/
theorem no_spurious_acceptance :
    (∀ (evs : List Adc.Event) (k : Nat), Adc.sinceAccepted Adc.init none evs = some k →
      k < 1 → Adc.accepted (Adc.run Adc.init evs) = false) ∧
    (∀ (evs : List Rgb.Event) (k : Nat), Rgb.sinceAccepted Rgb.init none evs = some k →
      k < 2 → ∃ t, Rgb.run Rgb.init evs = some t ∧ Rgb.accepted t = false) := by
  refine ⟨fun evs k hk hlt => ?_, fun evs k hk hlt => ?_⟩
  · have h := Adc.since_bound evs Adc.init none (fun j hj => by cases hj) k hk
    exact (Adc.accepted_false_iff _).2 (by omega)
  · obtain ⟨t, ht, h⟩ :=
      Rgb.rgb_since_bound evs Rgb.init none (by decide) (fun j hj => by cases hj) k hk
    exact ⟨t, ht, (Rgb.rgb_accepted_false_iff t).2 (by omega)⟩

set_option maxRecDepth 100000 in
/-- Instance of `no_spurious_acceptance`. Single-LED: right after the edge
event accepted at `ticks = 2`. RGB: an edge event is accepted at `ticks = 255`,
one tick wraps the counter to 0, and the next edge event is not accepted. -/
theorem no_spurious_acceptance_witness :
    (Adc.sinceAccepted Adc.init none [Adc.Event.tick, Adc.Event.tick, Adc.Event.edge]
        = some 0 ∧
      Adc.accepted (Adc.run Adc.init [Adc.Event.tick, Adc.Event.tick, Adc.Event.edge])
        = false) ∧
    (Rgb.run Rgb.init (List.replicate 255 Rgb.Event.tick ++ [Rgb.Event.edge, Rgb.Event.tick])
        = some { Rgb.init with ticks := 0, prev_ticks := 255, state := 1, i := 1,
                               PORTB := portSet Rgb.init.PORTB Rgb.RED_PIN } ∧
      Rgb.sinceAccepted Rgb.init none
        (List.replicate 255 Rgb.Event.tick ++ [Rgb.Event.edge, Rgb.Event.tick]) = some 1 ∧
      ∃ t, Rgb.run Rgb.init
          (List.replicate 255 Rgb.Event.tick ++ [Rgb.Event.edge, Rgb.Event.tick]) = some t ∧
        Rgb.accepted t = false) := by
  have h1 : Rgb.sinceAccepted Rgb.init none
      (List.replicate 255 Rgb.Event.tick ++ [Rgb.Event.edge, Rgb.Event.tick]) = some 1 := by
    decide
  exact ⟨⟨by decide,
      no_spurious_acceptance.1 [Adc.Event.tick, Adc.Event.tick, Adc.Event.edge] 0 (by decide)
        (by decide)⟩,
    by decide, h1, no_spurious_acceptance.2 _ 1 h1 (by decide)⟩

/-! ## Rotation tables -/

namespace Rgb

theorem s1_some_lt (k a : Nat) (h : s1[k]? = some a) : k < 3 := by
  obtain ⟨hk, _⟩ := List.getElem?_eq_some_iff.1 h
  exact hk

/-- An index at which a table holds `pin` is the given one, once the table
holds `pin` there and nowhere else among 0, 1, 2. -/
theorem table_unique (tbl : List Nat) (hlen : tbl.length = 3) (pin idx : Nat)
    (hidx : tbl[idx]? = some pin)
    (hothers : ∀ k : Nat, k < 3 → k ≠ idx → tbl[k]? ≠ some pin) :
    ∃! k : Nat, tbl[k]? = some pin := by
  refine ⟨idx, hidx, fun k hk => ?_⟩
  obtain ⟨hlt, _⟩ := List.getElem?_eq_some_iff.1 hk
  by_contra hne
  exact hothers k (by omega) hne hk

end Rgb

/-- C11: in the RGB variant the tables `s1` (leading) and `s2` (trailing) are
each a permutation of the three distinct outputs RED, GREEN, BLUE, every
output stands at exactly one index of `s1` and at exactly one index of `s2`,
and for every index `k < 3` the trailing output `s2[k]` is the leading output
of the step before, `s1[(k + 2) mod 3]`. -/
theorem rotation_maps_are_permutations :
    List.Perm Rgb.s1 [Rgb.RED_PIN, Rgb.GREEN_PIN, Rgb.BLUE_PIN] ∧
    List.Perm Rgb.s2 [Rgb.RED_PIN, Rgb.GREEN_PIN, Rgb.BLUE_PIN] ∧
    [Rgb.RED_PIN, Rgb.GREEN_PIN, Rgb.BLUE_PIN].Nodup ∧
    (∀ pin, pin ∈ [Rgb.RED_PIN, Rgb.GREEN_PIN, Rgb.BLUE_PIN] →
      (∃! k : Nat, Rgb.s1[k]? = some pin) ∧ (∃! k : Nat, Rgb.s2[k]? = some pin)) ∧
    (∀ k : Nat, k < 3 → ∃ pin, Rgb.s2[k]? = some pin ∧ Rgb.s1[(k + 2) % 3]? = some pin) := by
  refine ⟨by decide, by decide, by decide, fun pin hpin => ?_, fun k hk => ?_⟩
  · simp only [List.mem_cons, List.mem_singleton, List.not_mem_nil, or_false] at hpin
    rcases hpin with h | h | h
    · subst h
      refine ⟨Rgb.table_unique Rgb.s1 rfl _ 0 (by decide) ?_,
        Rgb.table_unique Rgb.s2 rfl _ 1 (by decide) ?_⟩
      · intro k hk hne
        interval_cases k <;> first | exact absurd rfl hne | decide
      · intro k hk hne
        interval_cases k <;> first | exact absurd rfl hne | decide
    · subst h
      refine ⟨Rgb.table_unique Rgb.s1 rfl _ 1 (by decide) ?_,
        Rgb.table_unique Rgb.s2 rfl _ 2 (by decide) ?_⟩
      · intro k hk hne
        interval_cases k <;> first | exact absurd rfl hne | decide
      · intro k hk hne
        interval_cases k <;> first | exact absurd rfl hne | decide
    · subst h
      refine ⟨Rgb.table_unique Rgb.s1 rfl _ 2 (by decide) ?_,
        Rgb.table_unique Rgb.s2 rfl _ 0 (by decide) ?_⟩
      · intro k hk hne
        interval_cases k <;> first | exact absurd rfl hne | decide
      · intro k hk hne
        interval_cases k <;> first | exact absurd rfl hne | decide
  · interval_cases k
    · exact ⟨Rgb.BLUE_PIN, by decide, by decide⟩
    · exact ⟨Rgb.RED_PIN, by decide, by decide⟩
    · exact ⟨Rgb.GREEN_PIN, by decide, by decide⟩

/-- Instance of `rotation_maps_are_permutations`: RED is leading at index 0
only and trailing at index 1 only, and `s2[0]` is `s1[2]`, BLUE. -/
theorem rotation_maps_are_permutations_witness :
    ((∃! k : Nat, Rgb.s1[k]? = some Rgb.RED_PIN) ∧ (∃! k : Nat, Rgb.s2[k]? = some Rgb.RED_PIN)) ∧
    Rgb.s1[0]? = some Rgb.RED_PIN ∧ Rgb.s2[1]? = some Rgb.RED_PIN ∧
    (∃ pin, Rgb.s2[0]? = some pin ∧ Rgb.s1[(0 + 2) % 3]? = some pin) ∧
    Rgb.s2[0]? = some Rgb.BLUE_PIN :=
  ⟨rotation_maps_are_permutations.2.2.2.1 Rgb.RED_PIN (by decide), by decide, by decide,
    rotation_maps_are_permutations.2.2.2.2 0 (by decide), by decide⟩

/-! ## Discarded edge events and the wraparound clamp -/

namespace Rgb

/-- An accepted edge event, when it is defined, flips the power state and
stores `ticks` in `prev_ticks`. -/
theorem INT0_vect_some_accept (s t : State) (ha : accepted s = true)
    (h : INT0_vect s = some t) : t.state = flipped s.state ∧ t.prev_ticks = s.ticks := by
  by_cases hs : s.state = 0
  · rw [INT0_vect_accept_off s ha hs] at h
    cases h
    exact ⟨by simp [flipped, hs], rfl⟩
  · cases h2 : s2[s.i]? with
    | some a =>
      rw [INT0_vect_accept_on s a ha hs h2] at h
      cases h
      exact ⟨by simp [flipped, hs], rfl⟩
    | none =>
      rw [rgb_accepted_iff] at ha
      have hlt : ¬ s.ticks < s.prev_ticks := by omega
      have hge : ¬ s.ticks ≤ s.prev_ticks + 2 := by omega
      unfold INT0_vect at h
      simp [hlt, hge, hs, h2] at h

end Rgb

set_option maxRecDepth 100000 in
/-- C12 (as stated, refuted): in the state reached by 255 ticks, an accepted
edge event and one more tick (`ticks = 0`, `prev_ticks = 255`, powered on), an
edge event leaves the power state unchanged and yet sets `prev_ticks` to 0. -/
theorem prev_ticks_frame_as_stated_fails :
    (Adc.run Adc.init Adc.wrapSession =
        { Adc.init with ticks := 0, prev_ticks := 255, state := 1 } ∧
      Adc.INT0_vect { Adc.init with ticks := 0, prev_ticks := 255, state := 1 } =
        { Adc.init with ticks := 0, prev_ticks := 0, state := 1 }) ∧
    (Rgb.run Rgb.init Rgb.wrapSession =
        some { ticks := 0, prev_ticks := 255, state := 1, i := 1, PORTB := 12 } ∧
      Rgb.INT0_vect { ticks := 0, prev_ticks := 255, state := 1, i := 1, PORTB := 12 } =
        some { ticks := 0, prev_ticks := 0, state := 1, i := 1, PORTB := 12 }) := by
  decide

/-- C12 (amended): in both variants, if an edge event leaves the power state
unchanged, then `prev_ticks` is unchanged when `ticks ≥ prev_ticks`, and is
lowered to `ticks` when `ticks < prev_ticks`. In the RGB variant a discarded
edge event is always defined. -/
theorem prev_ticks_frame :
    (∀ s : Adc.State, (Adc.INT0_vect s).state = s.state →
      (s.prev_ticks ≤ s.ticks → (Adc.INT0_vect s).prev_ticks = s.prev_ticks) ∧
      (s.ticks < s.prev_ticks → (Adc.INT0_vect s).prev_ticks = s.ticks)) ∧
    (∀ s t : Rgb.State, Rgb.INT0_vect s = some t → t.state = s.state →
      (s.prev_ticks ≤ s.ticks → t.prev_ticks = s.prev_ticks) ∧
      (s.ticks < s.prev_ticks → t.prev_ticks = s.ticks)) ∧
    (∀ s : Rgb.State, Rgb.accepted s = false →
      ∃ t, Rgb.INT0_vect s = some t ∧ t.state = s.state) := by
  refine ⟨fun s hst => ?_, fun s t ht hst => ?_, fun s ha => ?_⟩
  · cases ha : Adc.accepted s
    · rw [Adc.INT0_vect_discard s ha]
      show (s.prev_ticks ≤ s.ticks → Adc.clamped s = s.prev_ticks) ∧
        (s.ticks < s.prev_ticks → Adc.clamped s = s.ticks)
      unfold Adc.clamped
      constructor
      · intro h
        rw [if_neg (by omega)]
      · intro h
        rw [if_pos h]
    · rw [Adc.INT0_vect_accept s ha] at hst
      exact absurd hst (Adc.flipped_ne s.state)
  · cases ha : Rgb.accepted s
    · rw [Rgb.rgb_INT0_vect_discard s ha] at ht
      cases ht
      show (s.prev_ticks ≤ s.ticks → Rgb.clamped s = s.prev_ticks) ∧
        (s.ticks < s.prev_ticks → Rgb.clamped s = s.ticks)
      unfold Rgb.clamped
      constructor
      · intro h
        rw [if_neg (by omega)]
      · intro h
        rw [if_pos h]
    · have h := (Rgb.INT0_vect_some_accept s t ha ht).1
      rw [hst] at h
      exact absurd h.symm (Rgb.flipped_ne_self s.state)
  · exact ⟨_, Rgb.rgb_INT0_vect_discard s ha, rfl⟩

/-- Instance of `prev_ticks_frame`: an edge event one tick after the accepted
one (`ticks = 3`, `prev_ticks = 2`) keeps `prev_ticks`; an edge event after a
wrap (`ticks = 0`, `prev_ticks = 255`) lowers it to 0. -/
theorem prev_ticks_frame_witness :
    ((Adc.INT0_vect { Adc.init with ticks := 3, prev_ticks := 2, state := 1 }).prev_ticks = 2 ∧
      (Adc.INT0_vect { Adc.init with ticks := 0, prev_ticks := 255, state := 1 }).prev_ticks
        = 0) ∧
    (Rgb.INT0_vect { Rgb.init with ticks := 3, prev_ticks := 2, state := 1 } =
        some { Rgb.init with ticks := 3, prev_ticks := 2, state := 1 } ∧
      ({ Rgb.init with ticks := 3, prev_ticks := 2, state := 1 } : Rgb.State).prev_ticks = 2) ∧
    (∃ t, Rgb.INT0_vect { Rgb.init with ticks := 0, prev_ticks := 255, state := 1 } = some t ∧
      t.state = 1) := by
  refine ⟨⟨?_, ?_⟩, ⟨by decide, ?_⟩, ?_⟩
  · exact (prev_ticks_frame.1 { Adc.init with ticks := 3, prev_ticks := 2, state := 1 }
      (by decide)).1 (by decide)
  · exact (prev_ticks_frame.1 { Adc.init with ticks := 0, prev_ticks := 255, state := 1 }
      (by decide)).2 (by decide)
  · exact (prev_ticks_frame.2.1 { Rgb.init with ticks := 3, prev_ticks := 2, state := 1 }
      { Rgb.init with ticks := 3, prev_ticks := 2, state := 1 } (by decide) (by decide)).1
      (by decide)
  · exact prev_ticks_frame.2.2 { Rgb.init with ticks := 0, prev_ticks := 255, state := 1 }
      (by decide)

/-- C14: in both variants, for every state with `ticks < prev_ticks`, an edge
event sets `prev_ticks` to `ticks` and changes nothing else: the power state,
the port register and (RGB) the rotation index are as before. -/
theorem wraparound_clamp :
    (∀ s : Adc.State, s.ticks < s.prev_ticks →
      Adc.INT0_vect s = { s with prev_ticks := s.ticks }) ∧
    (∀ s : Rgb.State, s.ticks < s.prev_ticks →
      Rgb.INT0_vect s = some { s with prev_ticks := s.ticks }) := by
  refine ⟨fun s h => ?_, fun s h => ?_⟩
  · have ha : Adc.accepted s = false := (Adc.accepted_false_iff s).2 (by omega)
    have hc : Adc.clamped s = s.ticks := by
      unfold Adc.clamped
      rw [if_pos h]
    rw [Adc.INT0_vect_discard s ha, hc]
  · have ha : Rgb.accepted s = false := (Rgb.rgb_accepted_false_iff s).2 (by omega)
    have hc : Rgb.clamped s = s.ticks := by
      unfold Rgb.clamped
      rw [if_pos h]
    rw [Rgb.rgb_INT0_vect_discard s ha, hc]

/-- Instance of `wraparound_clamp` at `ticks = 0`, `prev_ticks = 255`, powered
on with a lit LED (single-LED) and with rotation index 1 and the red line
high (RGB). -/
theorem wraparound_clamp_witness :
    Adc.INT0_vect { Adc.init with ticks := 0, prev_ticks := 255, state := 1, PORTB := 13 } =
      { Adc.init with ticks := 0, prev_ticks := 0, state := 1, PORTB := 13 } ∧
    Rgb.INT0_vect { ticks := 0, prev_ticks := 255, state := 1, i := 1, PORTB := 12 } =
      some { ticks := 0, prev_ticks := 0, state := 1, i := 1, PORTB := 12 } :=
  ⟨wraparound_clamp.1 { Adc.init with ticks := 0, prev_ticks := 255, state := 1, PORTB := 13 }
      (by decide),
    wraparound_clamp.2 { ticks := 0, prev_ticks := 255, state := 1, i := 1, PORTB := 12 }
      (by decide)⟩

/-! ## Accumulator of the sample handler -/

namespace Adc

/-- The accumulating branch of `ISR(ADC_vect)`: powered on, fewer than four
samples counted. -/
theorem ADC_vect_accumulate (s : State) (adcl adch : Nat) (hon : s.state ≠ 0)
    (hlt : s.measurement_count < 4) :
    ADC_vect s adcl adch =
      { s with
        sum := (s.sum + sampleValue adcl adch) % 65536
        measurement_count := (s.measurement_count + 1) % 256 } := by
  unfold ADC_vect sampleValue
  have h4 : ¬ 4 ≤ s.measurement_count := by omega
  simp only [hon, if_false, ge_iff_le, h4]

/-- The deciding branch of `ISR(ADC_vect)` resets the accumulator. -/
theorem ADC_vect_reset (s : State) (adcl adch : Nat) (hon : s.state ≠ 0)
    (hfull : 4 ≤ s.measurement_count) :
    (ADC_vect s adcl adch).sum = 0 ∧ (ADC_vect s adcl adch).measurement_count = 0 := by
  rw [ADC_vect_decision s adcl adch _ hon hfull rfl]
  exact ⟨rfl, rfl⟩

/-- The two register bytes of a 16-bit conversion result `v` combine to `v`. -/
theorem sampleValue_bytes (v : Nat) (hv : v < 65536) : sampleValue (v % 256) (v / 256) = v := by
  unfold sampleValue
  have h1 : v / 256 % 256 = v / 256 := Nat.mod_eq_of_lt (by omega)
  have h2 : v % 256 % 256 = v % 256 := Nat.mod_eq_of_lt (by omega)
  have h3 : v % 256 < 2 ^ 8 := by omega
  rw [h1, h2, Nat.shiftLeft_eq, Nat.mul_comm, ← Nat.mul_add_lt_is_or h3]
  omega

theorem INT0_vect_sum (s : State) : (INT0_vect s).sum = s.sum := by
  cases h : accepted s
  · rw [INT0_vect_discard s h]
  · rw [INT0_vect_accept s h]

theorem INT0_vect_measurement_count (s : State) :
    (INT0_vect s).measurement_count = s.measurement_count := by
  cases h : accepted s
  · rw [INT0_vect_discard s h]
  · rw [INT0_vect_accept s h]

/-- A sample-ready event with a 10-bit result keeps the count at most 4 and
the sum at most 1023 per counted sample. -/
theorem acc_bound_sample (s : State) (adcl adch : Nat) (hv : sampleValue adcl adch ≤ 1023)
    (hc : s.measurement_count ≤ 4) (hs : s.sum ≤ 1023 * s.measurement_count) :
    (ADC_vect s adcl adch).measurement_count ≤ 4 ∧
    (ADC_vect s adcl adch).sum ≤ 1023 * (ADC_vect s adcl adch).measurement_count := by
  by_cases hon : s.state = 0
  · rw [ADC_vect_off s adcl adch hon]
    exact ⟨hc, hs⟩
  · by_cases hfull : 4 ≤ s.measurement_count
    · obtain ⟨h1, h2⟩ := ADC_vect_reset s adcl adch hon hfull
      rw [h1, h2]
      exact ⟨Nat.zero_le _, Nat.le_refl _⟩
    · rw [ADC_vect_accumulate s adcl adch hon (by omega)]
      show (s.measurement_count + 1) % 256 ≤ 4 ∧
        (s.sum + sampleValue adcl adch) % 65536 ≤ 1023 * ((s.measurement_count + 1) % 256)
      omega

theorem acc_bound_run (evs : List Event) :
    ∀ s : State, tenBit evs = true → s.measurement_count ≤ 4 →
      s.sum ≤ 1023 * s.measurement_count →
      (run s evs).measurement_count ≤ 4 ∧
      (run s evs).sum ≤ 1023 * (run s evs).measurement_count := by
  induction evs with
  | nil => intro s _ hc hs; exact ⟨hc, hs⟩
  | cons e es ih =>
    intro s htb hc hs
    cases e with
    | tick => exact ih (TIMER1_OVF_vect s) htb hc hs
    | edge =>
      refine ih (INT0_vect s) htb ?_ ?_
      · rw [INT0_vect_measurement_count]
        exact hc
      · rw [INT0_vect_sum, INT0_vect_measurement_count]
        exact hs
    | sample adcl adch =>
      simp only [tenBit, Bool.and_eq_true, decide_eq_true_eq] at htb
      obtain ⟨h1, h2⟩ := acc_bound_sample s adcl adch htb.1 hc hs
      exact ih (ADC_vect s adcl adch) htb.2 h1 h2

theorem frame_run (evs : List Event) :
    ∀ s : State, ticksAndEdges evs = true →
      (run s evs).sum = s.sum ∧ (run s evs).measurement_count = s.measurement_count := by
  induction evs with
  | nil => intro s _; exact ⟨rfl, rfl⟩
  | cons e es ih =>
    intro s h
    cases e with
    | tick => exact ih (TIMER1_OVF_vect s) h
    | edge =>
      obtain ⟨h1, h2⟩ := ih (INT0_vect s) h
      rw [INT0_vect_sum] at h1
      rw [INT0_vect_measurement_count] at h2
      exact ⟨h1, h2⟩
    | sample adcl adch => exact absurd h (by simp [ticksAndEdges])

end Adc

/-- C13 (the code at the failing input): after power-on with an empty
accumulator, five conversions of 250 are summed before the first decision
(`sum = 1000`, `measurement_count = 4` after four of them, no decision yet);
the decision then stores `avg = 1250 / 4 = 312`, not the mean 250 of the five
samples, and lights the LED although 250 lies inside the band 200..300. -/
theorem avg_is_not_the_window_mean :
    Adc.run Adc.init (Adc.fiveSamples.take 7) =
      { Adc.init with ticks := 2, prev_ticks := 2, state := 1, sum := 1000,
                      measurement_count := 4 } ∧
    Adc.run Adc.init Adc.fiveSamples =
      { Adc.init with ticks := 2, prev_ticks := 2, state := 1, avg := 312,
                      PORTB := portSet Adc.init.PORTB Adc.LED_PIN } ∧
    Adc.mean [250, 250, 250, 250, 250] = 250 ∧
    lineHigh Adc.init.PORTB Adc.LED_PIN = false ∧
    lineHigh (Adc.run Adc.init Adc.fiveSamples).PORTB Adc.LED_PIN = true := by
  decide

/-- C16: with 10-bit conversion results, in every state reachable from the
initial state `measurement_count ≤ 4` and `sum ≤ 1023 * measurement_count`, so
`sum` is below `2^16` between events and stays below it when the handler adds
the next result; and when the handler reaches the division (powered on,
`measurement_count ≥ 4`) the divisor is exactly 4. -/
theorem accumulator_bounds (evs : List Adc.Event) (h : Adc.tenBit evs = true) :
    (Adc.run Adc.init evs).measurement_count ≤ 4 ∧
    (Adc.run Adc.init evs).sum ≤ 1023 * (Adc.run Adc.init evs).measurement_count ∧
    (Adc.run Adc.init evs).sum < 65536 ∧
    (∀ adcl adch, Adc.sampleValue adcl adch ≤ 1023 →
      (Adc.run Adc.init evs).sum + Adc.sampleValue adcl adch < 65536) ∧
    ((Adc.run Adc.init evs).state ≠ 0 → 4 ≤ (Adc.run Adc.init evs).measurement_count →
      (Adc.run Adc.init evs).measurement_count = 4) := by
  obtain ⟨h1, h2⟩ := Adc.acc_bound_run evs Adc.init h (by decide) (by decide)
  refine ⟨h1, h2, by omega, fun adcl adch hv => by omega, fun _ h4 => by omega⟩

/-- Instance of `accumulator_bounds`: after power-on and four conversions of
250 the count is 4, the sum is 1000, and the handler is about to divide. -/
theorem accumulator_bounds_witness :
    Adc.tenBit (Adc.fiveSamples.take 7) = true ∧
    (Adc.run Adc.init (Adc.fiveSamples.take 7)).sum = 1000 ∧
    (Adc.run Adc.init (Adc.fiveSamples.take 7)).measurement_count ≤ 4 ∧
    (Adc.run Adc.init (Adc.fiveSamples.take 7)).sum + Adc.sampleValue 255 3 < 65536 ∧
    (Adc.run Adc.init (Adc.fiveSamples.take 7)).measurement_count = 4 := by
  have h := accumulator_bounds (Adc.fiveSamples.take 7) (by decide)
  exact ⟨by decide, by decide, h.1, h.2.2.2.1 255 3 (by decide),
    h.2.2.2.2 (by decide) (by decide)⟩

/-- C17: an edge event of the single-LED variant, accepted or not, leaves `sum`
and `measurement_count` as they were, and so does every sequence of tick and
edge events; the first sample-ready event after such a sequence, taken while
powered on, adds to the old sum and increments the old count. -/
theorem no_accumulator_reset :
    (∀ s : Adc.State, (Adc.INT0_vect s).sum = s.sum ∧
      (Adc.INT0_vect s).measurement_count = s.measurement_count) ∧
    (∀ (s : Adc.State) (evs : List Adc.Event), Adc.ticksAndEdges evs = true →
      (Adc.run s evs).sum = s.sum ∧
      (Adc.run s evs).measurement_count = s.measurement_count) ∧
    (∀ (s : Adc.State) (evs : List Adc.Event) (adcl adch : Nat),
      Adc.ticksAndEdges evs = true → (Adc.run s evs).state ≠ 0 → s.measurement_count < 4 →
      (Adc.ADC_vect (Adc.run s evs) adcl adch).sum =
        (s.sum + Adc.sampleValue adcl adch) % 65536 ∧
      (Adc.ADC_vect (Adc.run s evs) adcl adch).measurement_count =
        (s.measurement_count + 1) % 256) := by
  refine ⟨fun s => ⟨Adc.INT0_vect_sum s, Adc.INT0_vect_measurement_count s⟩,
    fun s evs h => Adc.frame_run evs s h, fun s evs adcl adch h hon hlt => ?_⟩
  obtain ⟨h1, h2⟩ := Adc.frame_run evs s h
  rw [Adc.ADC_vect_accumulate (Adc.run s evs) adcl adch hon (by omega)]
  show ((Adc.run s evs).sum + Adc.sampleValue adcl adch) % 65536 = _ ∧
    ((Adc.run s evs).measurement_count + 1) % 256 = _
  rw [h1, h2]
  exact ⟨rfl, rfl⟩

/-- Instance of `no_accumulator_reset`: two conversions of 300 are counted,
the device is switched off and on again, and the next conversion of 100
continues at `sum = 700`, `measurement_count = 3`. -/
theorem no_accumulator_reset_witness :
    Adc.run Adc.init (Adc.staleSession.take 5) =
      { Adc.init with ticks := 2, prev_ticks := 2, state := 1, sum := 600,
                      measurement_count := 2 } ∧
    (Adc.run Adc.init (Adc.staleSession.take 8)).state = 0 ∧
    Adc.run Adc.init Adc.staleSession =
      { Adc.init with ticks := 6, prev_ticks := 6, state := 1, sum := 600,
                      measurement_count := 2 } ∧
    ((Adc.run (Adc.run Adc.init (Adc.staleSession.take 5)) (Adc.staleSession.drop 5)).sum =
        (Adc.run Adc.init (Adc.staleSession.take 5)).sum ∧
      (Adc.run (Adc.run Adc.init (Adc.staleSession.take 5))
          (Adc.staleSession.drop 5)).measurement_count =
        (Adc.run Adc.init (Adc.staleSession.take 5)).measurement_count) ∧
    ((Adc.ADC_vect (Adc.run (Adc.run Adc.init (Adc.staleSession.take 5))
          (Adc.staleSession.drop 5)) 100 0).sum = 700 ∧
      (Adc.ADC_vect (Adc.run (Adc.run Adc.init (Adc.staleSession.take 5))
          (Adc.staleSession.drop 5)) 100 0).measurement_count = 3) :=
  ⟨by decide, by decide, by decide,
    no_accumulator_reset.2.1 (Adc.run Adc.init (Adc.staleSession.take 5))
      (Adc.staleSession.drop 5) (by decide),
    no_accumulator_reset.2.2 (Adc.run Adc.init (Adc.staleSession.take 5))
      (Adc.staleSession.drop 5) 100 0 (by decide) (by decide) (by decide)⟩

/-! ## Rotation index and lit lines in reachable states -/

namespace Rgb

theorem rotInv_lt (s : State) (h : rotInv s = true) : s.i < 3 := by
  simp only [rotInv, Bool.and_eq_true, decide_eq_true_eq] at h
  exact h.1.1

/-- Under the rotation invariant at most one LED line is high, and a high
line is `s2[i]`. -/
theorem rotInv_lit (s : State) (h : rotInv s = true) :
    (litLines s.PORTB).length ≤ 1 ∧
    ∀ pin, pin ∈ litLines s.PORTB → s2[s.i]? = some pin := by
  obtain ⟨tk, p, st, i, port⟩ := s
  have hi : i < 3 := rotInv_lt _ h
  interval_cases i
  · simp [rotInv, s2, RED_PIN, GREEN_PIN, BLUE_PIN] at h
    simp only [litLines, RED_PIN, GREEN_PIN, BLUE_PIN, s2]
    cases hb : lineHigh port 4 <;> simp [List.filter, h.1, hb]
  · simp [rotInv, s2, RED_PIN, GREEN_PIN, BLUE_PIN] at h
    simp only [litLines, RED_PIN, GREEN_PIN, BLUE_PIN, s2]
    cases hb : lineHigh port 3 <;> simp [List.filter, h.1, hb]
  · simp [rotInv, s2, RED_PIN, GREEN_PIN, BLUE_PIN] at h
    simp only [litLines, RED_PIN, GREEN_PIN, BLUE_PIN, s2]
    cases hb : lineHigh port 0 <;> simp [List.filter, h.1, hb]

/-- Under the rotation invariant a tick event taken while powered on leaves
exactly the leading line `s1[i]` high. -/
theorem rotInv_tick_lit (s : State) (h : rotInv s = true) (hon : s.state ≠ 0) :
    ∃ u leading, TIMER1_OVF_vect s = some u ∧ s1[s.i]? = some leading ∧
      litLines u.PORTB = [leading] := by
  obtain ⟨tk, p, st, i, port⟩ := s
  have hi : i < 3 := rotInv_lt _ h
  simp only at hon
  interval_cases i
  · refine ⟨_, RED_PIN, TIMER1_OVF_vect_on _ BLUE_PIN RED_PIN hon (by simp) rfl rfl, rfl, ?_⟩
    simp [rotInv, s2, RED_PIN, GREEN_PIN, BLUE_PIN] at h
    simp [litLines, List.filter, lineHigh_portSet, lineHigh_portClear, RED_PIN, GREEN_PIN,
      BLUE_PIN, h.1]
  · refine ⟨_, GREEN_PIN, TIMER1_OVF_vect_on _ RED_PIN GREEN_PIN hon (by simp) rfl rfl, rfl, ?_⟩
    simp [rotInv, s2, RED_PIN, GREEN_PIN, BLUE_PIN] at h
    simp [litLines, List.filter, lineHigh_portSet, lineHigh_portClear, RED_PIN, GREEN_PIN,
      BLUE_PIN, h.1]
  · refine ⟨_, BLUE_PIN, TIMER1_OVF_vect_on _ GREEN_PIN BLUE_PIN hon (by simp) rfl rfl, rfl, ?_⟩
    simp [rotInv, s2, RED_PIN, GREEN_PIN, BLUE_PIN] at h
    simp [litLines, List.filter, lineHigh_portSet, lineHigh_portClear, RED_PIN, GREEN_PIN,
      BLUE_PIN, h.1]

end Rgb

/-- C15: in the RGB variant every event sequence from the initial state is
defined and ends in a state with rotation index `i < 3`; there both table
reads `s2[i]`, `s1[i]` are inside the arrays, and the tick handler and the edge
handler are defined. -/
theorem rotation_index_in_range (evs : List Rgb.Event) :
    ∃ t, Rgb.run Rgb.init evs = some t ∧ t.i < 3 ∧
      (∃ trailing leading, Rgb.s2[t.i]? = some trailing ∧ Rgb.s1[t.i]? = some leading) ∧
      (∃ u, Rgb.TIMER1_OVF_vect t = some u) ∧ (∃ u, Rgb.INT0_vect t = some u) := by
  obtain ⟨t, ht, hinv⟩ := Rgb.rotInv_run evs Rgb.init Rgb.rotInv_init
  have hi : t.i < 3 := Rgb.rotInv_lt t hinv
  obtain ⟨u, hu, _⟩ := Rgb.tick_defined t hi
  obtain ⟨v, hv, _⟩ := Rgb.edge_defined t hi
  exact ⟨t, ht, hi, Rgb.reads_defined t.i hi, ⟨u, hu⟩, ⟨v, hv⟩⟩

/-- C19: in the RGB variant, in every state reachable from the initial state at
most one of the three LED lines is high, and a high line is `s2[i]`; a tick
event taken in a reachable powered-on state leaves exactly one line high, the
leading output `s1[i]` of that step. -/
theorem at_most_one_led_lit :
    (∀ evs : List Rgb.Event, ∃ t, Rgb.run Rgb.init evs = some t ∧
      (Rgb.litLines t.PORTB).length ≤ 1 ∧
      ∀ pin, pin ∈ Rgb.litLines t.PORTB → Rgb.s2[t.i]? = some pin) ∧
    (∀ (evs : List Rgb.Event) (t : Rgb.State), Rgb.run Rgb.init evs = some t →
      t.state ≠ 0 →
      ∃ u leading, Rgb.TIMER1_OVF_vect t = some u ∧ Rgb.s1[t.i]? = some leading ∧
        Rgb.litLines u.PORTB = [leading]) := by
  refine ⟨fun evs => ?_, fun evs t ht hon => ?_⟩
  · obtain ⟨t, ht, hinv⟩ := Rgb.rotInv_run evs Rgb.init Rgb.rotInv_init
    exact ⟨t, ht, Rgb.rotInv_lit t hinv⟩
  · obtain ⟨t', ht', hinv⟩ := Rgb.rotInv_run evs Rgb.init Rgb.rotInv_init
    rw [ht] at ht'
    cases ht'
    exact Rgb.rotInv_tick_lit t hinv hon

/-- Instance of `at_most_one_led_lit`: after the example execution the red
line alone is high, with `i = 1` and `s2[1]` red; the next tick leaves the
green line alone high. -/
theorem at_most_one_led_lit_witness :
    Rgb.run Rgb.init Rgb.sessionOn =
      some { ticks := 7, prev_ticks := 3, state := 1, i := 1, PORTB := 12 } ∧
    Rgb.litLines 12 = [Rgb.RED_PIN] ∧
    (∀ pin, pin ∈ Rgb.litLines 12 → Rgb.s2[1]? = some pin) ∧
    (∃ u leading,
      Rgb.TIMER1_OVF_vect { ticks := 7, prev_ticks := 3, state := 1, i := 1, PORTB := 12 } =
        some u ∧
      Rgb.s1[1]? = some leading ∧ Rgb.litLines u.PORTB = [leading]) ∧
    Rgb.s1[1]? = some Rgb.GREEN_PIN := by
  have hrun : Rgb.run Rgb.init Rgb.sessionOn =
      some { ticks := 7, prev_ticks := 3, state := 1, i := 1, PORTB := 12 } := by decide
  refine ⟨hrun, by decide, ?_, at_most_one_led_lit.2 Rgb.sessionOn _ hrun (by decide),
    by decide⟩
  obtain ⟨t, ht, _, hlit⟩ := at_most_one_led_lit.1 Rgb.sessionOn
  rw [hrun] at ht
  cases ht
  exact hlit

/-! ## Exact acceptance condition -/

namespace Adc

theorem INT0_vect_state_ne_iff (s : State) :
    (INT0_vect s).state ≠ s.state ↔ s.prev_ticks + 2 ≤ s.ticks := by
  cases ha : accepted s
  · rw [INT0_vect_state_discard s ha]
    rw [accepted_false_iff] at ha
    constructor
    · intro h
      exact absurd rfl h
    · intro h
      omega
  · have hne : (INT0_vect s).state ≠ s.state := by
      rw [INT0_vect_accept s ha]
      exact flipped_ne s.state
    rw [accepted_iff] at ha
    exact ⟨fun _ => by omega, fun _ => hne⟩

end Adc

namespace Rgb

theorem INT0_vect_state_ne_iff_rgb (s t : State) (h : INT0_vect s = some t) :
    t.state ≠ s.state ↔ s.prev_ticks + 3 ≤ s.ticks := by
  cases ha : accepted s
  · rw [rgb_INT0_vect_discard s ha] at h
    cases h
    rw [rgb_accepted_false_iff] at ha
    constructor
    · intro h
      exact absurd rfl h
    · intro h
      omega
  · have hst := (INT0_vect_some_accept s t ha h).1
    rw [rgb_accepted_iff] at ha
    refine ⟨fun _ => by omega, fun _ => ?_⟩
    rw [hst]
    exact flipped_ne_self s.state

end Rgb

/-- C18: an edge event is accepted (the power state changes) if and only if
`ticks ≥ prev_ticks + 2` in the single-LED variant and `ticks ≥ prev_ticks + 3`
in the RGB variant, the sums taken in the natural numbers. With 8-bit `ticks`,
`prev_ticks = 255` (RGB: `prev_ticks ≥ 254`) admits no accepted event, whereas
the comparison with the sum truncated to 8 bits would accept at
`ticks = prev_ticks = 255` (RGB: at `ticks = 255`, `prev_ticks = 254`). -/
theorem exact_acceptance_condition :
    (∀ s : Adc.State,
      (Adc.accepted s = true ↔ s.prev_ticks + 2 ≤ s.ticks) ∧
      ((Adc.INT0_vect s).state ≠ s.state ↔ s.prev_ticks + 2 ≤ s.ticks)) ∧
    (∀ s : Adc.State, s.ticks < 256 → s.prev_ticks = 255 →
      Adc.accepted s = false ∧ (Adc.INT0_vect s).state = s.state) ∧
    (∀ s : Rgb.State,
      (Rgb.accepted s = true ↔ s.prev_ticks + 3 ≤ s.ticks) ∧
      (∀ t, Rgb.INT0_vect s = some t → (t.state ≠ s.state ↔ s.prev_ticks + 3 ≤ s.ticks)) ∧
      (s.i < 3 → ∃ t, Rgb.INT0_vect s = some t)) ∧
    (∀ s : Rgb.State, s.ticks < 256 → 254 ≤ s.prev_ticks →
      Rgb.accepted s = false ∧ ∃ t, Rgb.INT0_vect s = some t ∧ t.state = s.state) ∧
    (Adc.acceptedWrapped { Adc.init with ticks := 255, prev_ticks := 255 } = true ∧
      Adc.accepted { Adc.init with ticks := 255, prev_ticks := 255 } = false) ∧
    (Rgb.acceptedWrapped { Rgb.init with ticks := 255, prev_ticks := 254 } = true ∧
      Rgb.accepted { Rgb.init with ticks := 255, prev_ticks := 254 } = false) := by
  refine ⟨fun s => ⟨?_, Adc.INT0_vect_state_ne_iff s⟩, fun s h8 hp => ?_,
    fun s => ⟨?_, fun t ht => Rgb.INT0_vect_state_ne_iff_rgb s t ht, fun hi => ?_⟩,
    fun s h8 hp => ?_, by decide, by decide⟩
  · rw [Adc.accepted_iff]
    omega
  · have ha : Adc.accepted s = false := (Adc.accepted_false_iff s).2 (by omega)
    exact ⟨ha, Adc.INT0_vect_state_discard s ha⟩
  · rw [Rgb.rgb_accepted_iff]
    omega
  · obtain ⟨t, ht, _⟩ := Rgb.edge_defined s hi
    exact ⟨t, ht⟩
  · have ha : Rgb.accepted s = false := (Rgb.rgb_accepted_false_iff s).2 (by omega)
    exact ⟨ha, _, Rgb.rgb_INT0_vect_discard s ha, rfl⟩

/-- Instance of `exact_acceptance_condition`: at `prev_ticks = 255`
(single-LED) and `prev_ticks = 254` (RGB) an edge event at `ticks = 255` is
not accepted; at `ticks = 3`, `prev_ticks = 0` the RGB handler switches on. -/
theorem exact_acceptance_condition_witness :
    (Adc.accepted { Adc.init with ticks := 255, prev_ticks := 255 } = false ∧
      (Adc.INT0_vect { Adc.init with ticks := 255, prev_ticks := 255 }).state = 0) ∧
    (Rgb.accepted { Rgb.init with ticks := 255, prev_ticks := 254 } = false ∧
      ∃ t, Rgb.INT0_vect { Rgb.init with ticks := 255, prev_ticks := 254 } = some t ∧
        t.state = 0) ∧
    (∃ t, Rgb.INT0_vect { Rgb.init with ticks := 3 } = some t) ∧
    (({ Rgb.init with ticks := 3, prev_ticks := 3, state := 1 } : Rgb.State).state ≠ 0 ↔
      0 + 3 ≤ 3) :=
  ⟨exact_acceptance_condition.2.1 { Adc.init with ticks := 255, prev_ticks := 255 }
      (by decide) (by decide),
    exact_acceptance_condition.2.2.2.1 { Rgb.init with ticks := 255, prev_ticks := 254 }
      (by decide) (by decide),
    (exact_acceptance_condition.2.2.1 { Rgb.init with ticks := 3 }).2.2 (by decide),
    (exact_acceptance_condition.2.2.1 { Rgb.init with ticks := 3 }).2.1
      { Rgb.init with ticks := 3, prev_ticks := 3, state := 1 } (by decide)⟩

/-! ## Decision cadence of the sample handler -/

namespace Adc

theorem run_append (xs ys : List Event) :
    ∀ s : State, run s (xs ++ ys) = run (run s xs) ys := by
  induction xs with
  | nil => intro s; rfl
  | cons e es ih => intro s; exact ih (step s e)

theorem feed_append (w : List (Nat × Nat)) (r : Nat × Nat) :
    feed (w ++ [r]) = feed w ++ [Event.sample r.1 r.2] := by
  simp [feed]

theorem total_append (w : List (Nat × Nat)) (r : Nat × Nat) :
    total (w ++ [r]) = total w + sampleValue r.1 r.2 := by
  simp [total]

/-- While powered on and with room in the window, a run of sample-ready events
only adds to `sum` and raises `measurement_count`. -/
theorem run_feed_accumulate (w : List (Nat × Nat)) :
    ∀ s : State, s.state ≠ 0 → s.measurement_count + w.length ≤ 4 →
      s.sum + total w < 65536 →
      run s (feed w) =
        { s with sum := s.sum + total w, measurement_count := s.measurement_count + w.length } := by
  induction w with
  | nil =>
    intro s _ _ _
    simp [feed, total, run]
  | cons r rs ih =>
    intro s hon hlen hfit
    have htot : total (r :: rs) = sampleValue r.1 r.2 + total rs := by simp [total]
    have hcons : (r :: rs).length = rs.length + 1 := rfl
    rw [htot] at hfit
    rw [hcons] at hlen
    have hstep : run s (feed (r :: rs)) = run (ADC_vect s r.1 r.2) (feed rs) := rfl
    rw [hstep, ADC_vect_accumulate s r.1 r.2 hon (by omega)]
    have h1 : (s.sum + sampleValue r.1 r.2) % 65536 = s.sum + sampleValue r.1 r.2 :=
      Nat.mod_eq_of_lt (by omega)
    have h2 : (s.measurement_count + 1) % 256 = s.measurement_count + 1 :=
      Nat.mod_eq_of_lt (by omega)
    have hih := ih
      { s with
        sum := s.sum + sampleValue r.1 r.2
        measurement_count := s.measurement_count + 1 }
      hon (by show s.measurement_count + 1 + rs.length ≤ 4; omega)
      (by show s.sum + sampleValue r.1 r.2 + total rs < 65536; omega)
    rw [h1, h2, hih, htot, hcons]
    obtain ⟨tk, p, st, c, sm, av, port⟩ := s
    simp only [State.mk.injEq, true_and, and_true]
    constructor <;> omega

end Adc

/-- C20: in the single-LED variant, powered on with `sum = 0` and
`measurement_count = 0`, and with conversion results whose sum fits 16 bits
(as five 10-bit results do), the first four sample-ready events only add to
`sum` and raise `measurement_count` to their number, leaving `avg` and the port
register untouched; the fifth stores `avg = (v1 + v2 + v3 + v4 + v5) / 4`,
decides on it, and resets `sum` and `measurement_count` to 0, so the next
window starts from the same condition. -/
theorem decision_cadence (s : Adc.State) (w : List (Nat × Nat)) (r : Nat × Nat)
    (hon : s.state ≠ 0) (hsum : s.sum = 0) (hcnt : s.measurement_count = 0)
    (hfit : Adc.total (w ++ [r]) < 65536) :
    (w.length ≤ 4 →
      Adc.run s (Adc.feed w) =
        { s with sum := Adc.total w, measurement_count := w.length }) ∧
    (w.length = 4 →
      Adc.run s (Adc.feed (w ++ [r])) =
        { s with
          sum := 0
          measurement_count := 0
          avg := Adc.total (w ++ [r]) / 4
          PORTB :=
            if 300 < Adc.total (w ++ [r]) / 4 then portSet s.PORTB Adc.LED_PIN
            else if Adc.total (w ++ [r]) / 4 < 200 then portClear s.PORTB Adc.LED_PIN
            else s.PORTB }) := by
  have htot := Adc.total_append w r
  have hfirst : w.length ≤ 4 →
      Adc.run s (Adc.feed w) =
        { s with sum := Adc.total w, measurement_count := w.length } := by
    intro hlen
    rw [Adc.run_feed_accumulate w s hon (by omega) (by omega), hsum, hcnt, Nat.zero_add,
      Nat.zero_add]
  refine ⟨hfirst, fun h4 => ?_⟩
  rw [Adc.feed_append, Adc.run_append, hfirst (by omega)]
  show Adc.ADC_vect _ r.1 r.2 = _
  have hdec := ADC_vect_decision
    { s with sum := Adc.total w, measurement_count := w.length } r.1 r.2
    (Adc.total (w ++ [r]) / 4) hon (by show 4 ≤ w.length; omega)
    (by
      show Adc.total (w ++ [r]) / 4 =
        ((Adc.total w + Adc.sampleValue r.1 r.2) % 65536 / w.length) % 65536
      rw [← htot, h4, Nat.mod_eq_of_lt hfit]
      exact (Nat.mod_eq_of_lt (by omega)).symm)
  rw [hdec]

/-- Instance of `decision_cadence`: four readings of 350 (`ADCL = 94`,
`ADCH = 1`) after power-on give `sum = 1400`, `measurement_count = 4` and no
decision; the fifth gives `avg = 1750 / 4 = 437` and sets the LED bit. -/
theorem decision_cadence_witness :
    Adc.sampleValue 94 1 = 350 ∧
    Adc.run { Adc.init with state := 1 } (Adc.feed [(94, 1), (94, 1), (94, 1), (94, 1)]) =
      { Adc.init with state := 1, sum := 1400, measurement_count := 4 } ∧
    Adc.run { Adc.init with state := 1 }
        (Adc.feed ([(94, 1), (94, 1), (94, 1), (94, 1)] ++ [(94, 1)])) =
      { Adc.init with state := 1, avg := 437, PORTB := portSet Adc.init.PORTB Adc.LED_PIN } := by
  have h := decision_cadence { Adc.init with state := 1 } [(94, 1), (94, 1), (94, 1), (94, 1)]
    (94, 1) (by decide) (by decide) (by decide) (by decide)
  refine ⟨by decide, ?_, ?_⟩
  · rw [h.1 (by decide)]
    decide
  · rw [h.2 (by decide)]
    decide
